import Mathlib

/-!
# Verification of the Athas editor core: buffer store, LSP client, extension gate

Shallow embedding of the buffer entity store
(`src/features/settings/components/settings-dialog.tsx`, second document:
the `useBufferStore` zustand store), the LSP session manager
(`src/features/editor/lsp/lsp-client.ts`) and the extension resolution gate
(`src/extensions/registry/extension-store.ts`), together with proofs of the
spec's claims about them.

Modelling conventions:
* Buffer ids are opaque in the source (`buffer_<sanitized path>_<Date.now()>`
  strings, compared only with `===`).  We model the timestamp as a logical
  clock held in the store state, incremented on each creation, and use the
  clock value itself (a `Nat`) as the opaque id; ids are therefore unique per
  buffer instance, matching the spec's data model (§3: "opaque id, unique per
  buffer instance (not reused across open/close cycles)").
* `Date.now()`-collision behaviour and JS `undefined` corruption (splicing an
  out-of-range index) have no functional representation; operations whose
  source would throw a `TypeError` are modelled as returning `none`
  (the store is left unmutated, as an exception in the synchronous prelude of
  the action leaves the zustand state untouched).
* Fire-and-forget external side effects (LSP stop/start checks, recent-file
  tracking, session persistence) are modelled as an emitted `Effect` list.
-/

namespace Athas

/-- A syntax-highlighting token span, `{start, end, token_type, class_name}`
in the source (`Buffer.tokens` element type). -/
structure Token where
  start : Nat
  stop : Nat
  token_type : String
  class_name : String
deriving DecidableEq, Repr

/-- Parsed diff payload attached to diff buffers (`GitDiff | MultiFileDiff` in
the source); its structure is irrelevant to every claim, only its presence or
absence (`diffData` truthiness) is observed. -/
structure DiffData where
  payload : String
deriving DecidableEq, Repr

/-- One open document, mirroring the source's `Buffer` interface field for
field.  `id` is the opaque identity (see the modelling conventions above). -/
structure Buffer where
  id : Nat
  path : String
  name : String
  content : String
  isDirty : Bool
  isVirtual : Bool
  isPinned : Bool
  isImage : Bool
  isSQLite : Bool
  isDiff : Bool
  isActive : Bool
  language : Option String
  diffData : Option DiffData
  tokens : List Token
deriving DecidableEq, Repr

/-- The four batch-close flavours of `PendingClose.type`. -/
inductive CloseType where
  | single
  | others
  | all
  | toRight
deriving DecidableEq, Repr

/-- The source's `PendingClose` record: a close operation blocked on user
confirmation because an affected buffer is dirty. -/
structure PendingClose where
  bufferId : Nat
  type : CloseType
  keepBufferId : Option Nat
deriving DecidableEq, Repr

/-- One entry of `closedBuffersHistory` (`ClosedBuffer` in the source). -/
structure ClosedBuffer where
  path : String
  name : String
  isPinned : Bool
deriving DecidableEq, Repr

/-- The buffer store state (`BufferState` in the source), plus the logical
clock standing in for `Date.now()` in id generation. -/
structure BufferState where
  buffers : List Buffer
  activeBufferId : Option Nat
  maxOpenTabs : Nat
  pendingClose : Option PendingClose
  closedBuffersHistory : List ClosedBuffer
  clock : Nat
deriving DecidableEq, Repr

/-- Modelled from the spec: `EDITOR_CONSTANTS.MAX_CLOSED_BUFFERS_HISTORY`
(the constants module `features/editor/config/constants` is not among the
provided sources).  The spec only requires the history to be a bounded
most-recent-first sequence ("the last N (configurable constant)"); no claim
depends on the value, fixed here at 10. -/
def maxClosedBuffersHistory : Nat := 10

/-- Modelled from the spec: `detectLanguageFromFileName`
(`features/editor/utils/language-detection` is not among the provided
sources).  Per the spec (§3) the language is "derived once at open time from
the file name (extension/alias match)"; no claim depends on the mapping. -/
def detectLanguageFromFileName (name : String) : Option String :=
  let ends := fun (suf : String) => suf.data.isSuffixOf name.data
  if ends ".ts" || ends ".tsx" then some "typescript"
  else if ends ".js" || ends ".jsx" then some "javascript"
  else if ends ".rs" then some "rust"
  else none

/-- The initial store state: `buffers: [], activeBufferId: null,
maxOpenTabs: EDITOR_CONSTANTS.MAX_OPEN_TABS, pendingClose: null,
closedBuffersHistory: []`.  The constants module is not among the provided
sources, so the initial tab limit is a parameter `m0`. -/
def initState (m0 : Nat) : BufferState :=
  { buffers := []
    activeBufferId := none
    maxOpenTabs := m0
    pendingClose := none
    closedBuffersHistory := []
    clock := 0 }

/-- External fire-and-forget side effects emitted by store actions. -/
inductive Effect where
  /-- `lspClient.stopForFile(path)` dispatched by `closeBufferForce`. -/
  | lspStopForFile (path : String)
  /-- the recent-files registration in `openBuffer`. -/
  | recentFileAdd (path name : String)
  /-- the asynchronous extension-resolution / LSP-activation check dispatched
  by `openBuffer` for real files. -/
  | checkExtension (path : String)
  /-- `saveSessionToStore` scheduling a session snapshot. -/
  | saveSession
deriving DecidableEq, Repr

/-- `bufs.map((b) => ({ ...b, isActive: b.id === <newActiveId> }))`: the
re-activation map used by `openBuffer`, `setActiveBuffer`, `handleTabClick`,
`switchToNext/PreviousBuffer` and `closeBufferForce`.  A `none` id (the
source's `null`) deactivates every buffer. -/
def reassignActive (bufs : List Buffer) (newActiveId : Option Nat) : List Buffer :=
  bufs.map (fun b => { b with isActive := newActiveId == some b.id })

/-- Mutate the first element satisfying `p`, leaving the rest unchanged: the
shape of every immer `state.buffers.find(...)`-then-mutate block and of
`updateBuffer`'s `findIndex`-then-replace block in the source. -/
def updateFirst (p : α → Bool) (f : α → α) : List α → List α
  | [] => []
  | a :: t => if p a then f a :: t else a :: updateFirst p f t

/-- The `Buffer` literal `openBuffer` constructs for a new document: fresh
id, `isDirty: false`, `isPinned: false`, `isActive: true`, language derived
from the file name, empty token cache. -/
def freshBuffer (s : BufferState) (path name content : String)
    (isImage isSQLite isDiff isVirtual : Bool)
    (diffData : Option DiffData) : Buffer :=
  { id := s.clock
    path := path
    name := name
    content := content
    isDirty := false
    isVirtual := isVirtual
    isPinned := false
    isImage := isImage
    isSQLite := isSQLite
    isDiff := isDiff
    isActive := true
    language := detectLanguageFromFileName name
    diffData := diffData
    tokens := [] }

/-- The side effects `openBuffer` dispatches after inserting a new buffer:
recent-file tracking and the extension-resolution check only for real files
(non-virtual, non-diff, non-image, non-sqlite), a session save always. -/
def openEffects (path name : String)
    (isImage isSQLite isDiff isVirtual : Bool) : List Effect :=
  if !isVirtual && !isDiff && !isImage && !isSQLite then
    [Effect.recentFileAdd path name, Effect.checkExtension path,
     Effect.saveSession]
  else
    [Effect.saveSession]

/-- The number of open unpinned buffers
(`buffers.filter((b) => !b.isPinned).length`). -/
def unpinnedCount (s : BufferState) : Nat :=
  (s.buffers.filter (fun b => !b.isPinned)).length

/-- `openBuffer(path, name, content, isImage, isSQLite, isDiff, isVirtual,
diffData)`.  Returns the post state, the returned buffer id and the emitted
effects, or `none` when the source would throw (eviction requested with every
buffer pinned: `unpinnedBuffers[0]` is `undefined` and the subsequent
`lruBuffer.id` access is a `TypeError`; the callback never runs when
`newBuffers` is empty, so that case proceeds). -/
def openBuffer (s : BufferState) (path name content : String)
    (isImage isSQLite isDiff isVirtual : Bool) (diffData : Option DiffData) :
    Option (BufferState × Nat × List Effect) :=
  match s.buffers.find? (fun b => b.path == path) with
  | some existing =>
      -- already open: focus it and return its id; no session save (early return)
      some ({ s with
              activeBufferId := some existing.id
              buffers := reassignActive s.buffers (some existing.id) },
            existing.id, [])
  | none =>
      let unpinned := s.buffers.filter (fun b => !b.isPinned)
      let evicted : Option (List Buffer) :=
        if s.maxOpenTabs ≤ unpinned.length then
          match unpinned.head? with
          | some lru => some (s.buffers.filter (fun b => b.id != lru.id))
          | none => if s.buffers.isEmpty then some s.buffers else none
        else
          some s.buffers
      match evicted with
      | none => none
      | some bufs =>
          let newBuffer := freshBuffer s path name content
            isImage isSQLite isDiff isVirtual diffData
          some ({ s with
                  buffers := reassignActive bufs none ++ [newBuffer]
                  activeBufferId := some newBuffer.id
                  clock := s.clock + 1 },
                newBuffer.id,
                openEffects path name isImage isSQLite isDiff isVirtual)

/-- `closeBufferForce(bufferId)`: unconditional removal with index-clamped
active-buffer reassignment, LSP stop and history push for real files. -/
def closeBufferForce (s : BufferState) (bufferId : Nat) :
    BufferState × List Effect :=
  match s.buffers.findIdx? (fun b => b.id == bufferId) with
  | none => (s, [])
  | some bufferIndex =>
      match s.buffers[bufferIndex]? with
      | none => (s, [])  -- unreachable: `findIdx?` returns an in-range index
      | some closedBuffer =>
          let isReal := !closedBuffer.isVirtual && !closedBuffer.isDiff &&
            !closedBuffer.isImage && !closedBuffer.isSQLite
          let history :=
            if isReal then
              (({ path := closedBuffer.path, name := closedBuffer.name,
                  isPinned := closedBuffer.isPinned } : ClosedBuffer) ::
                s.closedBuffersHistory).take maxClosedBuffersHistory
            else s.closedBuffersHistory
          let newBuffers := s.buffers.filter (fun b => b.id != bufferId)
          let newActiveId : Option Nat :=
            if s.activeBufferId == some bufferId then
              match newBuffers[min bufferIndex (newBuffers.length - 1)]? with
              | some nb => some nb.id
              | none => none  -- `newBuffers.length > 0` fails: no buffer left
            else s.activeBufferId
          let effs := if isReal then [Effect.lspStopForFile closedBuffer.path]
            else []
          ({ s with
             buffers := reassignActive newBuffers newActiveId
             activeBufferId := newActiveId
             closedBuffersHistory := history },
           effs ++ [Effect.saveSession])

/-- `closeBuffer(bufferId)`: dirty buffers defer to a `PendingClose`,
clean buffers delegate to `closeBufferForce`. -/
def closeBuffer (s : BufferState) (bufferId : Nat) : BufferState × List Effect :=
  match s.buffers.find? (fun b => b.id == bufferId) with
  | none => (s, [])
  | some buffer =>
      if buffer.isDirty then
        ({ s with pendingClose := (some
            { bufferId := bufferId, type := CloseType.single,
              keepBufferId := none }) }, [])
      else
        closeBufferForce s bufferId

/-- `closeBuffersBatch(bufferIds, skipSessionSave)`.  The source's active
check is `bufferIds.includes(state.activeBufferId || "")`; the `""` sentinel
never names a buffer, so with a `null` active id the branch could only re-null
an already empty list, and the model takes the check as false there. -/
def closeBuffersBatch (s : BufferState) (bufferIds : List Nat)
    (skipSessionSave : Bool) : BufferState × List Effect :=
  if bufferIds.isEmpty then (s, [])
  else
    let buffers1 := s.buffers.filter (fun b => !bufferIds.contains b.id)
    let hitActive :=
      match s.activeBufferId with
      | some i => bufferIds.contains i
      | none => false
    let next : List Buffer × Option Nat :=
      if hitActive then
        match buffers1 with
        | [] => ([], none)
        | b :: rest => ({ b with isActive := true } :: rest, some b.id)
      else (buffers1, s.activeBufferId)
    ({ s with buffers := next.1, activeBufferId := next.2 },
     if skipSessionSave then [] else [Effect.saveSession])

/-- `setActiveBuffer(bufferId)`. -/
def setActiveBuffer (s : BufferState) (bufferId : Nat) : BufferState :=
  { s with
    activeBufferId := some bufferId
    buffers := reassignActive s.buffers (some bufferId) }

/-- `handleTabClick(bufferId)`: the source duplicates `setActiveBuffer`'s
body verbatim. -/
def handleTabClick (s : BufferState) (bufferId : Nat) : BufferState :=
  setActiveBuffer s bufferId

/-- The mutation `updateBufferContent` applies to its target buffer: write
the content, overwrite `diffData` only when a diff payload is supplied, and
set `isDirty` to `markDirty` only for non-virtual buffers; `tokens` are left
untouched. -/
def contentMutation (content : String) (markDirty : Bool)
    (diffData : Option DiffData) (b : Buffer) : Buffer :=
  { b with
    content := content
    diffData := (match diffData with
      | some d => some d
      | none => b.diffData)
    isDirty := (if b.isVirtual then b.isDirty else markDirty) }

/-- `updateBufferContent(bufferId, content, markDirty, diffData)`: no-op when
the target is missing or the content is unchanged with no diff payload;
otherwise applies `contentMutation` to the target buffer. -/
def updateBufferContent (s : BufferState) (bufferId : Nat) (content : String)
    (markDirty : Bool) (diffData : Option DiffData) : BufferState :=
  match s.buffers.find? (fun b => b.id == bufferId) with
  | none => s
  | some buffer =>
      if buffer.content == content && diffData.isNone then s
      else
        { s with buffers := (updateFirst (fun b => b.id == bufferId)
            (contentMutation content markDirty diffData) s.buffers) }

/-- `updateBufferTokens(bufferId, tokens)`. -/
def updateBufferTokens (s : BufferState) (bufferId : Nat)
    (tokens : List Token) : BufferState :=
  { s with buffers := (updateFirst (fun b => b.id == bufferId)
      (fun b => { b with tokens := tokens }) s.buffers) }

/-- `markBufferDirty(bufferId, isDirty)`. -/
def markBufferDirty (s : BufferState) (bufferId : Nat) (isDirty : Bool) :
    BufferState :=
  { s with buffers := (updateFirst (fun b => b.id == bufferId)
      (fun b => { b with isDirty := isDirty }) s.buffers) }

/-- `updateBuffer(updatedBuffer)`: wholesale replacement of the buffer whose
id matches (`findIndex` then assignment in the source). -/
def updateBuffer (s : BufferState) (updatedBuffer : Buffer) : BufferState :=
  { s with buffers := (updateFirst (fun b => b.id == updatedBuffer.id)
      (fun _ => updatedBuffer) s.buffers) }

/-- `handleTabPin(bufferId)`: toggles `isPinned` on the target buffer. -/
def handleTabPin (s : BufferState) (bufferId : Nat) :
    BufferState × List Effect :=
  ({ s with buffers := (updateFirst (fun b => b.id == bufferId)
      (fun b => { b with isPinned := !b.isPinned }) s.buffers) },
   [Effect.saveSession])

/-- Sequentially `closeBufferForce` each id (the source's
`buffersToClose.forEach((buffer) => get().actions.closeBufferForce(buffer.id))`,
each call reading the store state the previous one produced). -/
def forceCloseAll (s : BufferState) (ids : List Nat) :
    BufferState × List Effect :=
  ids.foldl
    (fun acc i =>
      let r := closeBufferForce acc.1 i
      (r.1, acc.2 ++ r.2))
    (s, [])

/-- `handleCloseOtherTabs(keepBufferId)`. -/
def handleCloseOtherTabs (s : BufferState) (keepBufferId : Nat) :
    BufferState × List Effect :=
  let buffersToClose :=
    s.buffers.filter (fun b => b.id != keepBufferId && !b.isPinned)
  match buffersToClose.find? (fun b => b.isDirty) with
  | some dirtyBuffer =>
      ({ s with pendingClose := (some
          { bufferId := dirtyBuffer.id, type := CloseType.others,
            keepBufferId := some keepBufferId }) }, [])
  | none => forceCloseAll s (buffersToClose.map (fun b => b.id))

/-- `handleCloseAllTabs()`. -/
def handleCloseAllTabs (s : BufferState) : BufferState × List Effect :=
  let buffersToClose := s.buffers.filter (fun b => !b.isPinned)
  match buffersToClose.find? (fun b => b.isDirty) with
  | some dirtyBuffer =>
      ({ s with pendingClose := (some
          { bufferId := dirtyBuffer.id, type := CloseType.all,
            keepBufferId := none }) }, [])
  | none => forceCloseAll s (buffersToClose.map (fun b => b.id))

/-- `handleCloseTabsToRight(bufferId)`. -/
def handleCloseTabsToRight (s : BufferState) (bufferId : Nat) :
    BufferState × List Effect :=
  match s.buffers.findIdx? (fun b => b.id == bufferId) with
  | none => (s, [])
  | some bufferIndex =>
      let buffersToClose :=
        (s.buffers.drop (bufferIndex + 1)).filter (fun b => !b.isPinned)
      match buffersToClose.find? (fun b => b.isDirty) with
      | some dirtyBuffer =>
          ({ s with pendingClose := (some
              { bufferId := dirtyBuffer.id, type := CloseType.toRight,
                keepBufferId := none }) }, [])
      | none => forceCloseAll s (buffersToClose.map (fun b => b.id))

/-- `reorderBuffers(startIndex, endIndex)`: JS `splice` removal followed by a
clamped `splice` insertion.  An out-of-range `startIndex` would splice
`undefined` back into the array in the source (corrupting the list), which has
no functional representation; the model returns `none` there. -/
def reorderBuffers (s : BufferState) (startIndex endIndex : Nat) :
    Option (BufferState × List Effect) :=
  match s.buffers[startIndex]? with
  | none => none
  | some removed =>
      let rest := s.buffers.take startIndex ++ s.buffers.drop (startIndex + 1)
      let k := min endIndex rest.length
      some ({ s with buffers := rest.take k ++ removed :: rest.drop k },
            [Effect.saveSession])

/-- The cyclic successor index used by `switchToNextBuffer`: `findIndex`
yields `-1` when the active id is absent, so the successor index is `0` in
that case, matching the source's `(-1 + 1) % length`. -/
def nextBufferIndex (s : BufferState) : Nat :=
  match s.activeBufferId.bind
      (fun i => s.buffers.findIdx? (fun b => b.id == i)) with
  | some k => (k + 1) % s.buffers.length
  | none => 0

/-- The cyclic predecessor index used by `switchToPreviousBuffer`: with the
active id absent the source computes `(-1 - 1 + length) % length`, which is
`(length - 2) % length` over `Nat` (index `0` when a single buffer is open). -/
def prevBufferIndex (s : BufferState) : Nat :=
  match s.activeBufferId.bind
      (fun i => s.buffers.findIdx? (fun b => b.id == i)) with
  | some k => (k + s.buffers.length - 1) % s.buffers.length
  | none => (s.buffers.length - 2) % s.buffers.length

/-- `switchToNextBuffer()`. -/
def switchToNextBuffer (s : BufferState) : BufferState :=
  if s.buffers.isEmpty then s
  else
    match s.buffers[nextBufferIndex s]? with
    | some nb =>
        { s with
          activeBufferId := some nb.id
          buffers := reassignActive s.buffers (some nb.id) }
    | none => s  -- unreachable: the index is reduced modulo the length

/-- `switchToPreviousBuffer()`. -/
def switchToPreviousBuffer (s : BufferState) : BufferState :=
  if s.buffers.isEmpty then s
  else
    match s.buffers[prevBufferIndex s]? with
    | some pb =>
        { s with
          activeBufferId := some pb.id
          buffers := reassignActive s.buffers (some pb.id) }
    | none => s  -- unreachable: the index is reduced modulo the length

/-- `setMaxOpenTabs(max)`. -/
def setMaxOpenTabs (s : BufferState) (max : Nat) : BufferState :=
  { s with maxOpenTabs := max }

/-- `setPendingClose(pending)`. -/
def setPendingClose (s : BufferState) (pending : Option PendingClose) :
    BufferState :=
  { s with pendingClose := pending }

/-- `cancelPendingClose()`. -/
def cancelPendingClose (s : BufferState) : BufferState :=
  { s with pendingClose := none }

/-- `confirmCloseWithoutSaving()`: clears the pending close, then executes the
originally requested close on the current state. -/
def confirmCloseWithoutSaving (s : BufferState) : BufferState × List Effect :=
  match s.pendingClose with
  | none => (s, [])
  | some pc =>
      let s1 := { s with pendingClose := none }
      match pc.type with
      | CloseType.single => closeBufferForce s1 pc.bufferId
      | CloseType.others =>
          match pc.keepBufferId with
          | some keep =>
              forceCloseAll s1
                ((s1.buffers.filter
                    (fun b => b.id != keep && !b.isPinned)).map (fun b => b.id))
          | none => (s1, [])
      | CloseType.all =>
          forceCloseAll s1
            ((s1.buffers.filter (fun b => !b.isPinned)).map (fun b => b.id))
      | CloseType.toRight =>
          match s1.buffers.findIdx? (fun b => b.id == pc.bufferId) with
          | none => (s1, [])
          | some idx =>
              forceCloseAll s1
                (((s1.buffers.drop (idx + 1)).filter
                    (fun b => !b.isPinned)).map (fun b => b.id))

/-- `reloadBufferFromDisk(bufferId)`: the disk read's outcome is the
`diskContent` parameter (`none` = read error, logged, state unchanged); a
successful read feeds `updateBufferContent(bufferId, content, false)`. -/
def reloadBufferFromDisk (s : BufferState) (bufferId : Nat)
    (diskContent : Option String) : BufferState :=
  match s.buffers.find? (fun b => b.id == bufferId) with
  | none => s
  | some buffer =>
      if buffer.isVirtual || buffer.isImage || buffer.isSQLite then s
      else
        match diskContent with
        | some content => updateBufferContent s bufferId content false none
        | none => s


/-! ## The public-action transition system (claim C1) -/

/-- One public store action, with its arguments.  `reloadBufferFromDisk` and
`reopenClosedTab` are compositions of the actions below (an
`updateBufferContent` with `markDirty = false`, respectively an `openBuffer`
plus `handleTabPin`), so sequences over this type cover them. -/
inductive Action where
  | openBuffer (path name content : String)
      (isImage isSQLite isDiff isVirtual : Bool) (diffData : Option DiffData)
  | closeBuffer (bufferId : Nat)
  | closeBufferForce (bufferId : Nat)
  | closeBuffersBatch (bufferIds : List Nat) (skipSessionSave : Bool)
  | setActiveBuffer (bufferId : Nat)
  | handleTabClick (bufferId : Nat)
  | handleTabClose (bufferId : Nat)
  | handleTabPin (bufferId : Nat)
  | handleCloseOtherTabs (keepBufferId : Nat)
  | handleCloseAllTabs
  | handleCloseTabsToRight (bufferId : Nat)
  | updateBufferContent (bufferId : Nat) (content : String)
      (markDirty : Bool) (diffData : Option DiffData)
  | updateBufferTokens (bufferId : Nat) (tokens : List Token)
  | markBufferDirty (bufferId : Nat) (isDirty : Bool)
  | updateBuffer (updatedBuffer : Buffer)
  | reorderBuffers (startIndex endIndex : Nat)
  | switchToNextBuffer
  | switchToPreviousBuffer
  | setMaxOpenTabs (max : Nat)
  | setPendingClose (pending : Option PendingClose)
  | confirmCloseWithoutSaving
  | cancelPendingClose
  | reloadBufferFromDisk (bufferId : Nat) (diskContent : Option String)
deriving DecidableEq, Repr

/-- Apply one action to the store state (effects discarded); `none` when the
source would throw before mutating the store. -/
def applyAction (s : BufferState) : Action → Option BufferState
  | Action.openBuffer p n c im sq df vr dd =>
      (openBuffer s p n c im sq df vr dd).map (fun r => r.1)
  | Action.closeBuffer i => some (closeBuffer s i).1
  | Action.closeBufferForce i => some (closeBufferForce s i).1
  | Action.closeBuffersBatch ids skip => some (closeBuffersBatch s ids skip).1
  | Action.setActiveBuffer i => some (setActiveBuffer s i)
  | Action.handleTabClick i => some (handleTabClick s i)
  | Action.handleTabClose i => some (closeBuffer s i).1
  | Action.handleTabPin i => some (handleTabPin s i).1
  | Action.handleCloseOtherTabs k => some (handleCloseOtherTabs s k).1
  | Action.handleCloseAllTabs => some (handleCloseAllTabs s).1
  | Action.handleCloseTabsToRight i => some (handleCloseTabsToRight s i).1
  | Action.updateBufferContent i c m d => some (updateBufferContent s i c m d)
  | Action.updateBufferTokens i ts => some (updateBufferTokens s i ts)
  | Action.markBufferDirty i d => some (markBufferDirty s i d)
  | Action.updateBuffer b => some (updateBuffer s b)
  | Action.reorderBuffers a b => (reorderBuffers s a b).map (fun r => r.1)
  | Action.switchToNextBuffer => some (switchToNextBuffer s)
  | Action.switchToPreviousBuffer => some (switchToPreviousBuffer s)
  | Action.setMaxOpenTabs m => some (setMaxOpenTabs s m)
  | Action.setPendingClose p => some (setPendingClose s p)
  | Action.confirmCloseWithoutSaving => some (confirmCloseWithoutSaving s).1
  | Action.cancelPendingClose => some (cancelPendingClose s)
  | Action.reloadBufferFromDisk i c => some (reloadBufferFromDisk s i c)

/-- Reachability from the empty initial state by arbitrary public actions
with arbitrary arguments — the quantification claim C1 is stated over. -/
inductive UReach (m0 : Nat) : BufferState → Prop where
  | init : UReach m0 (initState m0)
  | step {s s' : BufferState} {a : Action} :
      UReach m0 s → applyAction s a = some s' → UReach m0 s'

/-- Well-formedness of an action's arguments for the current state: the
id-taking focus actions name an open buffer, `updateBuffer` does not flip the
replaced buffer's `isActive` flag, and `reorderBuffers` gets an in-range start
index (out of range, the source splices `undefined` into the list). -/
def wfAction (s : BufferState) : Action → Prop
  | Action.setActiveBuffer i => ∃ b ∈ s.buffers, b.id = i
  | Action.handleTabClick i => ∃ b ∈ s.buffers, b.id = i
  | Action.updateBuffer b =>
      ∀ b0 ∈ s.buffers, b0.id = b.id → b.isActive = b0.isActive
  | Action.reorderBuffers st _ => st < s.buffers.length
  | _ => True

instance (s : BufferState) (a : Action) : Decidable (wfAction s a) := by
  unfold wfAction
  cases a <;> infer_instance

/-- Reachability when every applied action is well-formed for the state it is
applied in. -/
inductive WfReach (m0 : Nat) : BufferState → Prop where
  | init : WfReach m0 (initState m0)
  | step {s s' : BufferState} {a : Action} :
      WfReach m0 s → wfAction s a → applyAction s a = some s' → WfReach m0 s'

/-- Claim C1's conclusion: a non-empty buffer list has exactly one active
buffer, whose id is `activeBufferId`; an empty list has a null active id. -/
def activeExclusive (s : BufferState) : Prop :=
  (s.buffers ≠ [] →
    s.buffers.countP (fun b => b.isActive) = 1 ∧
    ∃ b ∈ s.buffers, b.isActive = true ∧ s.activeBufferId = some b.id) ∧
  (s.buffers = [] → s.activeBufferId = none)

instance (s : BufferState) : Decidable (activeExclusive s) := by
  unfold activeExclusive
  infer_instance

/-! ### The inductive invariant -/

/-- Inductive invariant of the store: distinct buffer ids, ids strictly below
the creation clock, `isActive` flags determined by `activeBufferId`, the
active id (when set) names an open buffer, and a non-empty list has a
non-null active id. -/
def Inv (s : BufferState) : Prop :=
  (s.buffers.map Buffer.id).Nodup ∧
  (∀ b ∈ s.buffers, b.id < s.clock) ∧
  (∀ b ∈ s.buffers, (b.isActive = true ↔ s.activeBufferId = some b.id)) ∧
  (∀ i, s.activeBufferId = some i → ∃ b ∈ s.buffers, b.id = i) ∧
  (s.buffers ≠ [] → s.activeBufferId ≠ none)

/-! ### Concrete states used by the claim C1 theorems -/

/-- The state after opening `/a.ts` in an empty store (tab limit 10). -/
def c1MidState : BufferState :=
  ((openBuffer (initState 10) "/a.ts" "a.ts" "" false false false false
      none).map (fun r => r.1)).getD (initState 10)

/-- `setActiveBuffer` called with an id that names no open buffer: the store
is left with one open buffer, none of them active. -/
def c1BadState : BufferState := setActiveBuffer c1MidState 999

/-- The state after opening `/a.ts` and `/b.ts` and clicking back to the
first buffer (id `0`) — a well-formed action sequence. -/
def c1WitMid2 : BufferState :=
  ((openBuffer c1MidState "/b.ts" "b.ts" "" false false false false
      none).map (fun r => r.1)).getD c1MidState

def c1WitState : BufferState := setActiveBuffer c1WitMid2 0

/-! ## LSP client model (`lsp-client.ts`) -/

/-- `LspError` from the source. -/
structure LspError where
  message : String
deriving DecidableEq, Repr

/-- A completion item as returned by the language server; only its identity
matters to the claims. -/
structure CompletionItem where
  label : String
deriving DecidableEq, Repr

/-- A hover payload; only its identity matters to the claims. -/
structure Hover where
  contents : String
deriving DecidableEq, Repr

/-- `LspClient.getCompletions`: the host call
(`invoke("lsp_get_completions", ...)`) either resolves with the items or
rejects (timeout, no session, protocol error); the surrounding
`try`/`catch` returns the resolved items, or `[]` on any rejection. -/
def getCompletions
    (hostResult : Except LspError (List CompletionItem)) :
    List CompletionItem :=
  match hostResult with
  | Except.ok completions => completions
  | Except.error _ => []

/-- `LspClient.getHover`: resolved payload, or `null` on any rejection. -/
def getHover (hostResult : Except LspError (Option Hover)) : Option Hover :=
  match hostResult with
  | Except.ok h => h
  | Except.error _ => none

/-! ## Concurrency model of `LspClient.startForFile` (claim C7)

`startForFile` runs, per call, two synchronous blocks separated by `await`
suspension points: after the registry import resolves it (a) reads the
registry, performs the `activeLanguageServers.has(serverKey)` check and, when
the check does not bail out, issues the `invoke("lsp_start_for_file", ...)`
request and suspends; when that promise resolves it (b) performs
`activeLanguageServers.add(serverKey)`.  Two concurrent calls interleave
these blocks on the shared client state. -/

/-- Progress of one `startForFile` call: before its check block, suspended on
the spawn `invoke`, or returned. -/
inductive LspPhase where
  | notStarted
  | awaitingSpawn
  | finished
deriving DecidableEq, Repr

/-- One in-flight `startForFile` call.  `key` is `workspacePath:languageId`,
present when the registry resolved both `serverPath` and `languageId` (the
already-running check and the `add` are skipped otherwise). -/
structure LspTask where
  key : Option String
  phase : LspPhase
deriving DecidableEq, Repr

/-- Shared client state plus two concurrent `startForFile` calls:
`activeLanguageServers` (a `Set`, kept duplicate-free), and a count of how
many times the host was asked to spawn the server. -/
structure LspWorld where
  activeLanguageServers : List String
  spawnCount : Nat
  t1 : LspTask
  t2 : LspTask
deriving DecidableEq, Repr

/-- `Set.prototype.add`: append only when absent. -/
def insertKey (servers : List String) (k : String) : List String :=
  if servers.contains k then servers else servers ++ [k]

/-- Run one task's next synchronous block against the shared state. -/
def lspTaskStep (servers : List String) (spawnCount : Nat) (t : LspTask) :
    List String × Nat × LspTask :=
  match t.phase with
  | LspPhase.notStarted =>
      match t.key with
      | some k =>
          if servers.contains k then
            -- "LSP for ... already running": early return, no spawn
            (servers, spawnCount, { t with phase := LspPhase.finished })
          else
            -- issue the spawn invoke and suspend on it
            (servers, spawnCount + 1,
             { t with phase := LspPhase.awaitingSpawn })
      | none =>
          -- no (serverPath, languageId): the check is skipped, invoke anyway
          (servers, spawnCount + 1,
           { t with phase := LspPhase.awaitingSpawn })
  | LspPhase.awaitingSpawn =>
      match t.key with
      | some k =>
          -- the invoke resolved: mark the server active
          (insertKey servers k, spawnCount,
           { t with phase := LspPhase.finished })
      | none => (servers, spawnCount, { t with phase := LspPhase.finished })
  | LspPhase.finished => (servers, spawnCount, t)

/-- Scheduler step: run the chosen task's next block (a no-op once it has
finished). -/
def lspStep (w : LspWorld) (pickFirst : Bool) : LspWorld :=
  if pickFirst then
    let r := lspTaskStep w.activeLanguageServers w.spawnCount w.t1
    { w with activeLanguageServers := r.1, spawnCount := r.2.1, t1 := r.2.2 }
  else
    let r := lspTaskStep w.activeLanguageServers w.spawnCount w.t2
    { w with activeLanguageServers := r.1, spawnCount := r.2.1, t2 := r.2.2 }

/-- Run a whole interleaving schedule. -/
def lspRun (w : LspWorld) (schedule : List Bool) : LspWorld :=
  schedule.foldl lspStep w

/-- Two `startForFile` calls for the same file and workspace issued against
an empty client: both resolve the same `workspace:languageId` key. -/
def lspStart2 (k : String) : LspWorld :=
  { activeLanguageServers := []
    spawnCount := 0
    t1 := { key := some k, phase := LspPhase.notStarted }
    t2 := { key := some k, phase := LspPhase.notStarted } }

/-- Weight of a task phase for the spawn bound: a task spawns at most once,
when leaving `notStarted`. -/
def phaseWeight : LspPhase → Nat
  | LspPhase.notStarted => 0
  | LspPhase.awaitingSpawn => 1
  | LspPhase.finished => 1

/-- Inductive invariant of the two-task interleaving for a shared key. -/
def LspInv (k : String) (w : LspWorld) : Prop :=
  (w.activeLanguageServers = [] ∨ w.activeLanguageServers = [k]) ∧
  w.t1.key = some k ∧ w.t2.key = some k ∧
  (w.t1.phase = LspPhase.finished → w.activeLanguageServers = [k]) ∧
  (w.t2.phase = LspPhase.finished → w.activeLanguageServers = [k]) ∧
  w.spawnCount ≤ phaseWeight w.t1.phase + phaseWeight w.t2.phase

/-! ## Extension resolution gate model (`extension-store.ts`) -/

/-- One `languages` contribution of an extension manifest. -/
structure LanguageContribution where
  id : String
  extensions : List String
  aliases : List String
deriving DecidableEq, Repr

/-- The manifest fields the gate reads (`id`, `displayName`, `languages`;
`languages` is optional in the manifest type — the source guards with
`if (extension.manifest.languages)`). -/
structure ExtensionManifest where
  id : String
  name : String
  displayName : String
  languages : Option (List LanguageContribution)
deriving DecidableEq, Repr

/-- A registry entry (`AvailableExtension`). -/
structure AvailableExtension where
  manifest : ExtensionManifest
  isInstalled : Bool
  isInstalling : Bool
deriving DecidableEq, Repr

/-- The characters after the last `.` (the whole string when it has no `.`):
`filePath.split(".").pop()`. -/
def lastDotSegment : List Char → List Char → List Char
  | [], acc => acc
  | ch :: rest, acc =>
      if ch = '.' then lastDotSegment rest []
      else lastDotSegment rest (acc ++ [ch])

/-- ASCII lower-casing of the extension (`.toLowerCase()` on an already
ASCII file extension). -/
def asciiLower (ch : Char) : Char :=
  if 'A' ≤ ch && ch ≤ 'Z' then Char.ofNat (ch.toNat + 32) else ch

/-- `getExtensionForFile(filePath)`: lower-case the segment after the last
dot; bail out when it is empty; otherwise return the first registry entry
(registry insertion order) one of whose language contributions lists
`.<ext>`. -/
def getExtensionForFile (available : List AvailableExtension)
    (filePath : String) : Option AvailableExtension :=
  let ext := (lastDotSegment filePath.data []).map asciiLower
  if ext.isEmpty then none
  else
    let fileExt := String.mk ('.' :: ext)
    available.find? (fun extension =>
      match extension.manifest.languages with
      | some langs =>
          langs.any (fun lang => lang.extensions.contains fileExt)
      | none => false)

/-- `isExtensionInstalled(extensionId)`: membership in the installed map. -/
def isExtensionInstalled (installedExtensions : List String)
    (extensionId : String) : Bool :=
  installedExtensions.contains extensionId

/-- The action the asynchronous extension check in `openBuffer` settles on. -/
inductive ExtAction where
  /-- `lspClient.startForFile(filePath, workspacePath)` is initiated. -/
  | startLsp (filePath workspacePath : String)
  /-- the `extension-install-needed` event is dispatched with this detail. -/
  | installPrompt (extensionId extensionName filePath : String)
  /-- nothing happens (logged only). -/
  | noAction
deriving DecidableEq, Repr

/-- JS `a || b` on a nullable string: `null` and `""` fall through to `b`
(`useFileSystemStore.getState().rootFolderPath || path`). -/
def jsStringOr (a : Option String) (b : String) : String :=
  match a with
  | some str => if str.data.isEmpty then b else str
  | none => b

/-- The decision procedure of `openBuffer`'s asynchronous extension check
(settings-dialog source, buffer-store document): resolve a descriptor for the
path; installed → start an LSP session with workspace
`rootFolderPath || path`; known but not installed → dispatch the
`extension-install-needed` event carrying
`{extensionId, extensionName, filePath}`; no descriptor → no action. -/
def extensionActivationDecision (available : List AvailableExtension)
    (installedExtensions : List String) (rootFolderPath : Option String)
    (path : String) : ExtAction :=
  match getExtensionForFile available path with
  | some extension =>
      if isExtensionInstalled installedExtensions extension.manifest.id then
        ExtAction.startLsp path (jsStringOr rootFolderPath path)
      else
        ExtAction.installPrompt extension.manifest.id
          extension.manifest.displayName path
  | none => ExtAction.noAction

/-! ### Concrete states used by the per-claim theorems -/

/-- C2: the store after opening `/x.rs` in an empty store (limit 5). -/
def c2State : BufferState :=
  ((openBuffer (initState 5) "/x.rs" "x.rs" "hi" false false false false
      none).map (fun r => r.1)).getD (initState 5)

/-- The buffer that open created (id `0`). -/
def c2Ex : Buffer :=
  { id := 0, path := "/x.rs", name := "x.rs", content := "hi",
    isDirty := false, isVirtual := false, isPinned := false,
    isImage := false, isSQLite := false, isDiff := false, isActive := true,
    language := some "rust", diffData := none, tokens := [] }

/-- C3: an empty store whose tab limit has been set to `0` by the public
action `setMaxOpenTabs(0)`. -/
def c3ZeroState : BufferState := setMaxOpenTabs (initState 10) 0

/-- C3: the result of opening `/a.ts` under the zero limit. -/
def c3ZeroRes : BufferState :=
  ((openBuffer c3ZeroState "/a.ts" "a.ts" "" false false false false
      none).map (fun r => r.1)).getD c3ZeroState

/-- C3: limit 2, `/a.ts` open. -/
def c3Wit1 : BufferState :=
  ((openBuffer (initState 2) "/a.ts" "a.ts" "" false false false false
      none).map (fun r => r.1)).getD (initState 2)

/-- C3: limit 2, `/a.ts` and `/b.ts` open — the limit is reached, so the
next open evicts `/a.ts`. -/
def c3WitState : BufferState :=
  ((openBuffer c3Wit1 "/b.ts" "b.ts" "" false false false false
      none).map (fun r => r.1)).getD c3Wit1

/-- C3: the result of opening `/c.ts` at the reached limit (evicting
`/a.ts`). -/
def c3WitRes : BufferState × Nat × List Effect :=
  (openBuffer c3WitState "/c.ts" "c.ts" "" false false false false
      none).getD (c3WitState, 0, [])

/-- C4: `/a.ts` open. -/
def c4Open1 : BufferState :=
  ((openBuffer (initState 10) "/a.ts" "a.ts" "" false false false false
      none).map (fun r => r.1)).getD (initState 10)

/-- C4: `/a.ts` and `/b.ts` open. -/
def c4Open2 : BufferState :=
  ((openBuffer c4Open1 "/b.ts" "b.ts" "" false false false false
      none).map (fun r => r.1)).getD c4Open1

def c4Dirty1 : BufferState := markBufferDirty c4Open2 0 true

def c4Dirty2 : BufferState := markBufferDirty c4Dirty1 1 true

/-- C4: both buffers dirty and `handleCloseAllTabs` already blocked on
confirmation, so `pendingClose = {bufferId: 0, type: "all"}`. -/
def c4S : BufferState := (handleCloseAllTabs c4Dirty2).1

/-- C4: a single dirty buffer, no pending close. -/
def c4WitState : BufferState := markBufferDirty c4Open1 0 true

/-- C5: one buffer with content `"hello"`. -/
def c5S : BufferState :=
  ((openBuffer (initState 10) "/y.ts" "y.ts" "hello" false false false
      false none).map (fun r => r.1)).getD (initState 10)

/-- C9: limit 1 with `/a.ts` open — the next open evicts it. -/
def c9S1 : BufferState :=
  ((openBuffer (initState 1) "/a.ts" "a.ts" "" false false false false
      none).map (fun r => r.1)).getD (initState 1)

/-- C9: the result of opening `/b.ts` at limit 1 (evicting `/a.ts`). -/
def c9Res : BufferState × Nat × List Effect :=
  (openBuffer c9S1 "/b.ts" "b.ts" "" false false false false
      none).getD (c9S1, 0, [])

/-- C9: the `/a.ts` buffer of `c9S1` (the one the next open evicts). -/
def c9Buf : Buffer :=
  { id := 0, path := "/a.ts", name := "a.ts", content := "",
    isDirty := false, isVirtual := false, isPinned := false,
    isImage := false, isSQLite := false, isDiff := false, isActive := true,
    language := some "typescript", diffData := none, tokens := [] }

/-- C10: one non-virtual buffer with content `"old"`, marked dirty. -/
def c10S : BufferState :=
  markBufferDirty
    (((openBuffer (initState 10) "/z.ts" "z.ts" "old" false false false
        false none).map (fun r => r.1)).getD (initState 10)) 0 true

/-- C8: the TypeScript entry of `loadAvailableExtensions`'s inline registry
(the fields the gate reads), not installed locally. -/
def c8TsExt : AvailableExtension :=
  { manifest :=
      { id := "athas.typescript", name := "TypeScript",
        displayName := "TypeScript",
        languages := some
          [{ id := "typescript",
             extensions := [".ts", ".tsx", ".mts", ".cts"],
             aliases := ["TypeScript", "ts"] },
           { id := "javascript",
             extensions := [".js", ".jsx", ".mjs", ".cjs"],
             aliases := ["JavaScript", "js"] }] }
    isInstalled := false
    isInstalling := false }

/-- C8: the Rust entry of the inline registry. -/
def c8RustExt : AvailableExtension :=
  { manifest :=
      { id := "athas.rust", name := "Rust", displayName := "Rust",
        languages := some
          [{ id := "rust", extensions := [".rs"],
             aliases := ["Rust", "rs"] }] }
    isInstalled := false
    isInstalling := false }

/-- C8: the inline registry, in its registration order. -/
def c8Registry : List AvailableExtension := [c8TsExt, c8RustExt]

/-- C8: an empty store to open a real `.ts` file in. -/
def c8State : BufferState := initState 4

/-- C8: the result of that open. -/
def c8Res : BufferState × Nat × List Effect :=
  (openBuffer c8State "/m.ts" "m.ts" "" false false false false
      none).getD (c8State, 0, [])

/-- C4: the single (dirty) buffer of `c4WitState`. -/
def c4WitBuf : Buffer :=
  { id := 0, path := "/a.ts", name := "a.ts", content := "",
    isDirty := true, isVirtual := false, isPinned := false,
    isImage := false, isSQLite := false, isDiff := false, isActive := true,
    language := some "typescript", diffData := none, tokens := [] }

/-- C5: the buffer of `c5S`. -/
def c5Buf : Buffer :=
  { id := 0, path := "/y.ts", name := "y.ts", content := "hello",
    isDirty := false, isVirtual := false, isPinned := false,
    isImage := false, isSQLite := false, isDiff := false, isActive := true,
    language := some "typescript", diffData := none, tokens := [] }

/-- C10: the dirty buffer of `c10S`. -/
def c10Buf : Buffer :=
  { id := 0, path := "/z.ts", name := "z.ts", content := "old",
    isDirty := true, isVirtual := false, isPinned := false,
    isImage := false, isSQLite := false, isDiff := false, isActive := true,
    language := some "typescript", diffData := none, tokens := [] }

/-! ### List helper lemmas -/

lemma updateFirst_map_eq {p : α → Bool} {f : α → α} (g : α → β) (l : List α)
    (hg : ∀ x ∈ l, p x = true → g (f x) = g x) :
    (updateFirst p f l).map g = l.map g := by
  induction l with
  | nil => rfl
  | cons a t ih =>
      simp only [updateFirst]
      by_cases h : p a
      · simp [h, hg a (List.mem_cons_self a t) h]
      · simp [h, ih (fun x hx => hg x (List.mem_cons_of_mem a hx))]

lemma updateFirst_length {p : α → Bool} {f : α → α} (l : List α) :
    (updateFirst p f l).length = l.length := by
  induction l with
  | nil => rfl
  | cons a t ih =>
      simp only [updateFirst]
      by_cases h : p a
      · simp [h]
      · simp [h, ih]

lemma mem_updateFirst {p : α → Bool} {f : α → α} {l : List α} {x : α}
    (hx : x ∈ updateFirst p f l) :
    x ∈ l ∨ ∃ a ∈ l, p a = true ∧ x = f a := by
  induction l with
  | nil => simp [updateFirst] at hx
  | cons a t ih =>
      simp only [updateFirst] at hx
      by_cases h : p a
      · rw [if_pos h] at hx
        rcases List.mem_cons.mp hx with h1 | h2
        · exact Or.inr ⟨a, List.mem_cons_self a t, h, h1⟩
        · exact Or.inl (List.mem_cons_of_mem a h2)
      · rw [if_neg h] at hx
        rcases List.mem_cons.mp hx with h1 | h2
        · exact Or.inl (h1 ▸ List.mem_cons_self a t)
        · rcases ih h2 with h3 | ⟨b, hb, hpb, hfb⟩
          · exact Or.inl (List.mem_cons_of_mem a h3)
          · exact Or.inr ⟨b, List.mem_cons_of_mem a hb, hpb, hfb⟩

lemma updateFirst_mem_of_mem {p : α → Bool} {f : α → α} {l : List α} {a : α}
    (ha : a ∈ l) :
    a ∈ updateFirst p f l ∨ (p a = true ∧ f a ∈ updateFirst p f l) := by
  induction l with
  | nil => simp at ha
  | cons c t ih =>
      simp only [updateFirst]
      by_cases h : p c
      · rcases List.mem_cons.mp ha with rfl | hmem
        · exact Or.inr ⟨h, by simp [h]⟩
        · exact Or.inl (by simp [h, hmem])
      · rcases List.mem_cons.mp ha with rfl | hmem
        · exact Or.inl (by simp [h])
        · rcases ih hmem with h1 | ⟨hp1, h1⟩
          · exact Or.inl (by simp [h, h1])
          · exact Or.inr ⟨hp1, by simp [h, h1]⟩

lemma reassignActive_map_id (bufs : List Buffer) (a : Option Nat) :
    (reassignActive bufs a).map Buffer.id = bufs.map Buffer.id := by
  simp only [reassignActive, List.map_map]
  rfl

lemma reassignActive_length (bufs : List Buffer) (a : Option Nat) :
    (reassignActive bufs a).length = bufs.length := by
  simp [reassignActive]

lemma mem_reassignActive {bufs : List Buffer} {a : Option Nat} {x : Buffer} :
    x ∈ reassignActive bufs a ↔
      ∃ b ∈ bufs, x = { b with isActive := a == some b.id } := by
  simp only [reassignActive, List.mem_map]
  constructor
  · rintro ⟨b, hb, rfl⟩
    exact ⟨b, hb, rfl⟩
  · rintro ⟨b, hb, rfl⟩
    exact ⟨b, hb, rfl⟩

/-- In a list with pairwise-distinct ids containing a buffer with id `i`,
exactly one element has id `i`. -/
lemma countP_id_eq_one {l : List Buffer} {b : Buffer} {i : Nat}
    (hnd : (l.map Buffer.id).Nodup) (hb : b ∈ l) (hid : b.id = i) :
    l.countP (fun x => x.id == i) = 1 := by
  induction l with
  | nil => simp at hb
  | cons a t ih =>
      simp only [List.map_cons, List.nodup_cons] at hnd
      rcases List.mem_cons.mp hb with rfl | hmem
      · have ht : t.countP (fun x => x.id == i) = 0 := by
          rw [List.countP_eq_zero]
          intro x hx hxbeq
          have hxi : x.id = i := by simpa using hxbeq
          exact hnd.1 (List.mem_map.mpr ⟨x, hx, by rw [hxi, hid]⟩)
        rw [List.countP_cons, ht, hid]
        simp
      · have hai : a.id ≠ i := by
          intro hae
          exact hnd.1 (List.mem_map.mpr ⟨b, hmem, by rw [hid, hae]⟩)
        rw [List.countP_cons, ih hnd.2 hmem]
        simp [hai]

lemma countP_congr_mem {l : List α} {p q : α → Bool}
    (h : ∀ a ∈ l, p a = q a) : l.countP p = l.countP q := by
  induction l with
  | nil => rfl
  | cons a t ih =>
      rw [List.countP_cons, List.countP_cons,
        ih (fun x hx => h x (List.mem_cons_of_mem a hx)),
        h a (List.mem_cons_self a t)]

/-! ### Invariant preservation -/

lemma inv_reassign (s : BufferState) (newBufs : List Buffer)
    (newActive : Option Nat) (hist : List ClosedBuffer)
    (hnd : (newBufs.map Buffer.id).Nodup)
    (hck : ∀ b ∈ newBufs, b.id < s.clock)
    (hne : newBufs ≠ [] → newActive ≠ none)
    (hmem : ∀ i, newActive = some i → ∃ b ∈ newBufs, b.id = i) :
    Inv { s with
          buffers := reassignActive newBufs newActive
          activeBufferId := newActive
          closedBuffersHistory := hist } := by
  refine ⟨?_, ?_, ?_, ?_, ?_⟩
  · rw [show ({ s with
        buffers := reassignActive newBufs newActive
        activeBufferId := newActive
        closedBuffersHistory := hist } : BufferState).buffers =
          reassignActive newBufs newActive from rfl,
      reassignActive_map_id]
    exact hnd
  · intro b hb
    rcases mem_reassignActive.mp hb with ⟨b0, hb0, rfl⟩
    exact hck b0 hb0
  · intro b hb
    rcases mem_reassignActive.mp hb with ⟨b0, hb0, rfl⟩
    simp [beq_iff_eq]
  · intro i hi
    rcases hmem i hi with ⟨b0, hb0, hid⟩
    exact ⟨{ b0 with isActive := newActive == some b0.id },
      mem_reassignActive.mpr ⟨b0, hb0, rfl⟩, hid⟩
  · intro hne'
    apply hne
    intro hcon
    apply hne'
    rw [show ({ s with
        buffers := reassignActive newBufs newActive
        activeBufferId := newActive
        closedBuffersHistory := hist } : BufferState).buffers =
          reassignActive newBufs newActive from rfl, hcon]
    rfl

lemma inv_updateFirst (s : BufferState) (p : Buffer → Bool)
    (f : Buffer → Buffer)
    (hid : ∀ b ∈ s.buffers, p b = true → (f b).id = b.id)
    (hact : ∀ b ∈ s.buffers, p b = true → (f b).isActive = b.isActive)
    (h : Inv s) : Inv { s with buffers := updateFirst p f s.buffers } := by
  obtain ⟨hnd, hck, hmatch, hmem, hne⟩ := h
  refine ⟨?_, ?_, ?_, ?_, ?_⟩
  · rw [show ({ s with buffers := updateFirst p f s.buffers } :
        BufferState).buffers = updateFirst p f s.buffers from rfl,
      updateFirst_map_eq Buffer.id s.buffers hid]
    exact hnd
  · intro b hb
    rcases mem_updateFirst hb with h1 | ⟨a, ha, hpa, rfl⟩
    · exact hck b h1
    · rw [hid a ha hpa]
      exact hck a ha
  · intro b hb
    rcases mem_updateFirst hb with h1 | ⟨a, ha, hpa, rfl⟩
    · exact hmatch b h1
    · rw [hact a ha hpa, hid a ha hpa]
      exact hmatch a ha
  · intro i hi
    rcases hmem i hi with ⟨b, hb, hbi⟩
    rcases updateFirst_mem_of_mem (p := p) (f := f) hb with h1 | ⟨hpb, h1⟩
    · exact ⟨b, h1, hbi⟩
    · exact ⟨f b, h1, by rw [hid b hb hpb]; exact hbi⟩
  · intro hne'
    apply hne
    intro hcon
    apply hne'
    rw [show ({ s with buffers := updateFirst p f s.buffers } :
        BufferState).buffers = updateFirst p f s.buffers from rfl, hcon]
    rfl

/-- Invariant after inserting a freshly stamped buffer at the tail with every
survivor deactivated (the new-buffer branch of `openBuffer`). -/
lemma inv_openNew (s : BufferState) (h : Inv s) (bufs : List Buffer)
    (hsub : bufs.Sublist s.buffers) (nb : Buffer)
    (hid : nb.id = s.clock) (hact : nb.isActive = true) :
    Inv { s with
          buffers := reassignActive bufs none ++ [nb]
          activeBufferId := some nb.id
          clock := s.clock + 1 } := by
  obtain ⟨hnd, hck, _, _, _⟩ := h
  have hckb : ∀ b ∈ bufs, b.id < s.clock :=
    fun b hb => hck b (hsub.subset hb)
  refine ⟨?_, ?_, ?_, ?_, ?_⟩
  · show ((reassignActive bufs none ++ [nb]).map Buffer.id).Nodup
    rw [List.map_append, reassignActive_map_id]
    have h1 : (bufs.map Buffer.id).Nodup :=
      (hsub.map Buffer.id).nodup hnd
    rw [List.nodup_append]
    refine ⟨h1, List.nodup_singleton _, ?_⟩
    intro x hx
    rcases List.mem_map.mp hx with ⟨b, hb, rfl⟩
    simp only [List.map_cons, List.map_nil, List.mem_singleton]
    intro heq
    exact absurd (hid ▸ heq ▸ hckb b hb) (lt_irrefl _)
  · intro b hb
    show b.id < s.clock + 1
    rcases List.mem_append.mp hb with h1 | h1
    · rcases mem_reassignActive.mp h1 with ⟨b0, hb0, rfl⟩
      exact Nat.lt_succ_of_lt (hckb b0 hb0)
    · rw [List.mem_singleton.mp h1, hid]
      exact Nat.lt_succ_self _
  · intro b hb
    show b.isActive = true ↔ some nb.id = some b.id
    rcases List.mem_append.mp hb with h1 | h1
    · rcases mem_reassignActive.mp h1 with ⟨b0, hb0, rfl⟩
      show (none == some b0.id) = true ↔ some nb.id = some b0.id
      constructor
      · intro hfalse
        exact absurd hfalse (by simp)
      · intro heq
        have : nb.id = b0.id := by injection heq
        exact absurd (hid ▸ this ▸ hckb b0 hb0) (lt_irrefl _)
    · rw [List.mem_singleton.mp h1]
      simp [hact]
  · intro i hi
    have : i = nb.id := by injection hi.symm
    exact ⟨nb, List.mem_append.mpr (Or.inr (List.mem_singleton_self _)),
      this.symm⟩
  · intro _
    simp

/-- `openBuffer` preserves the invariant whenever it does not throw. -/
lemma inv_openBuffer {s : BufferState} (h : Inv s)
    {p n c : String} {im sq df vr : Bool} {dd : Option DiffData}
    {r : BufferState × Nat × List Effect}
    (hr : openBuffer s p n c im sq df vr dd = some r) : Inv r.1 := by
  unfold openBuffer at hr
  cases hfind : s.buffers.find? (fun b => b.path == p) with
  | some existing =>
      rw [hfind] at hr
      simp only [Option.some.injEq] at hr
      rw [← hr]
      exact inv_reassign s s.buffers (some existing.id)
        s.closedBuffersHistory h.1 h.2.1
        (fun _ => by simp)
        (fun i hi => ⟨existing, List.mem_of_find?_eq_some hfind,
          Option.some.inj hi⟩)
  | none =>
      rw [hfind] at hr
      simp only at hr
      -- name the eviction result and case on how it was produced
      rcases hev : (if s.maxOpenTabs ≤
          (s.buffers.filter (fun b => !b.isPinned)).length then
            match (s.buffers.filter (fun b => !b.isPinned)).head? with
            | some lru => some (s.buffers.filter (fun b => b.id != lru.id))
            | none => if s.buffers.isEmpty then some s.buffers else none
          else some s.buffers) with _ | bufs
      · rw [hev] at hr
        exact absurd hr (by simp)
      · rw [hev] at hr
        simp only [Option.some.injEq] at hr
        have hsub : bufs.Sublist s.buffers := by
          by_cases hcond : s.maxOpenTabs ≤
              (s.buffers.filter (fun b => !b.isPinned)).length
          · rw [if_pos hcond] at hev
            cases hhead : (s.buffers.filter (fun b => !b.isPinned)).head? with
            | some lru =>
                rw [hhead] at hev
                simp only [Option.some.injEq] at hev
                rw [← hev]
                exact List.filter_sublist _
            | none =>
                rw [hhead] at hev
                by_cases hemp : s.buffers.isEmpty
                · rw [if_pos hemp] at hev
                  simp only [Option.some.injEq] at hev
                  rw [← hev]
                · rw [if_neg hemp] at hev
                  exact absurd hev (by simp)
          · rw [if_neg hcond] at hev
            simp only [Option.some.injEq] at hev
            rw [← hev]
        rw [← hr]
        exact inv_openNew s h bufs hsub _ rfl rfl

/-- `closeBufferForce` preserves the invariant. -/
lemma inv_closeBufferForce (s : BufferState) (h : Inv s) (i : Nat) :
    Inv (closeBufferForce s i).1 := by
  cases hidx : s.buffers.findIdx? (fun b => b.id == i) with
  | none =>
      simp only [closeBufferForce, hidx]
      exact h
  | some bufferIndex =>
      cases hget : s.buffers[bufferIndex]? with
      | none =>
          simp only [closeBufferForce, hidx, hget]
          exact h
      | some cb =>
          simp only [closeBufferForce, hidx, hget]
          apply inv_reassign
          · exact ((List.filter_sublist _).map Buffer.id).nodup h.1
          · exact fun b hb => h.2.1 b (List.mem_of_mem_filter hb)
          · intro hne'
            by_cases hact : s.activeBufferId == some i
            · rw [if_pos hact]
              have hpos : 0 <
                  (s.buffers.filter (fun b => b.id != i)).length :=
                List.length_pos.mpr hne'
              have hlen : min bufferIndex
                  ((s.buffers.filter (fun b => b.id != i)).length - 1) <
                  (s.buffers.filter (fun b => b.id != i)).length :=
                lt_of_le_of_lt (min_le_right _ _) (Nat.sub_lt hpos Nat.one_pos)
              rw [List.getElem?_eq_getElem hlen]
              simp
            · rw [if_neg hact]
              have hsb : s.buffers ≠ [] := by
                intro hemp
                apply hne'
                rw [hemp]
                rfl
              exact h.2.2.2.2 hsb
          · intro j hj
            by_cases hact : s.activeBufferId == some i
            · rw [if_pos hact] at hj
              cases hg2 : (s.buffers.filter (fun b => b.id != i))[min
                  bufferIndex
                  ((s.buffers.filter (fun b => b.id != i)).length - 1)]? with
              | none =>
                  rw [hg2] at hj
                  exact absurd hj (by simp)
              | some nb =>
                  rw [hg2] at hj
                  simp only [Option.some.injEq] at hj
                  exact ⟨nb, List.getElem?_mem hg2, hj⟩
            · rw [if_neg hact] at hj
              obtain ⟨b, hb, hbid⟩ := h.2.2.2.1 j hj
              refine ⟨b, List.mem_filter.mpr ⟨hb, ?_⟩, hbid⟩
              have hne2 : s.activeBufferId ≠ some i := by
                intro hcon
                exact hact (by rw [hcon]; simp)
              have hji : j ≠ i := by
                intro hcon
                exact hne2 (hcon ▸ hj)
              simp [hbid, hji]

/-- `closeBuffer` preserves the invariant. -/
lemma inv_closeBuffer (s : BufferState) (h : Inv s) (i : Nat) :
    Inv (closeBuffer s i).1 := by
  cases hf : s.buffers.find? (fun b => b.id == i) with
  | none =>
      simp only [closeBuffer, hf]
      exact h
  | some b =>
      by_cases hd : b.isDirty
      · simp only [closeBuffer, hf, hd]
        exact h
      · simp only [closeBuffer, hf, hd]
        exact inv_closeBufferForce s h i

lemma inv_forceCloseAll_aux (ids : List Nat) :
    ∀ (s : BufferState) (effs : List Effect), Inv s →
      Inv (ids.foldl (fun acc i =>
        let r := closeBufferForce acc.1 i
        (r.1, acc.2 ++ r.2)) (s, effs)).1 := by
  induction ids with
  | nil =>
      intro s effs h
      exact h
  | cons i t ih =>
      intro s effs h
      simp only [List.foldl_cons]
      exact ih _ _ (inv_closeBufferForce s h i)

/-- Sequential forced closes preserve the invariant. -/
lemma inv_forceCloseAll (s : BufferState) (h : Inv s) (ids : List Nat) :
    Inv (forceCloseAll s ids).1 :=
  inv_forceCloseAll_aux ids s [] h

/-- Permuting the buffer list preserves the invariant. -/
lemma inv_of_perm (s : BufferState) {l : List Buffer}
    (hp : l.Perm s.buffers) (h : Inv s) : Inv { s with buffers := l } := by
  obtain ⟨hnd, hck, hmatch, hmem, hne⟩ := h
  refine ⟨?_, ?_, ?_, ?_, ?_⟩
  · exact ((hp.map Buffer.id).nodup_iff).mpr hnd
  · exact fun b hb => hck b (hp.subset hb)
  · exact fun b hb => hmatch b (hp.subset hb)
  · intro i hi
    obtain ⟨b, hb, hbi⟩ := hmem i hi
    exact ⟨b, hp.symm.subset hb, hbi⟩
  · intro hne'
    apply hne
    intro hcon
    apply hne'
    show l = []
    exact List.eq_nil_of_length_eq_zero (by rw [hp.length_eq, hcon]; rfl)

/-- `setActiveBuffer` with the id of an open buffer preserves the
invariant. -/
lemma inv_setActiveBuffer (s : BufferState) (h : Inv s) {i : Nat}
    (hw : ∃ b ∈ s.buffers, b.id = i) : Inv (setActiveBuffer s i) := by
  obtain ⟨b, hb, hbi⟩ := hw
  exact inv_reassign s s.buffers (some i) s.closedBuffersHistory h.1 h.2.1
    (fun _ => by simp)
    (fun j hj => ⟨b, hb, by rw [hbi]; exact Option.some.inj hj⟩)

lemma inv_closeBuffersBatch (s : BufferState) (h : Inv s) (ids : List Nat)
    (skip : Bool) : Inv (closeBuffersBatch s ids skip).1 := by
  by_cases hemp : ids.isEmpty
  · simp only [closeBuffersBatch, hemp]
    exact h
  · cases hA : s.activeBufferId with
    | none =>
        -- a null active id forces an empty buffer list by the invariant
        have hsb : s.buffers = [] := by
          by_contra hcon
          exact h.2.2.2.2 hcon hA
        simp only [closeBuffersBatch, hemp, hA, hsb]
        refine ⟨by simp, by simp, by simp, ?_, by simp⟩
        intro i hi
        simp at hi
    | some j =>
        by_cases hj : ids.contains j
        · cases hb1 : s.buffers.filter (fun b => !ids.contains b.id) with
          | nil =>
              simp only [closeBuffersBatch, hemp, hA, hj, hb1]
              refine ⟨by simp, by simp, by simp, ?_, by simp⟩
              intro i hi
              simp at hi
          | cons b rest =>
              simp only [closeBuffersBatch, hemp, hA, hj, hb1]
              have hsubf : (b :: rest).Sublist s.buffers :=
                hb1 ▸ List.filter_sublist s.buffers
              have hndf : ((b :: rest).map Buffer.id).Nodup :=
                (hsubf.map Buffer.id).nodup h.1
              refine ⟨?_, ?_, ?_, ?_, ?_⟩
              · show (({ b with isActive := true } :: rest).map
                  Buffer.id).Nodup
                exact hndf
              · intro x hx
                rcases List.mem_cons.mp hx with rfl | hxr
                · exact h.2.1 b (hsubf.subset (List.mem_cons_self b rest))
                · exact h.2.1 x
                    (hsubf.subset (List.mem_cons_of_mem b hxr))
              · intro x hx
                rcases List.mem_cons.mp hx with rfl | hxr
                · simp
                · have hxf : x ∈ s.buffers.filter
                      (fun b => !ids.contains b.id) := by
                    rw [hb1]
                    exact List.mem_cons_of_mem b hxr
                  have hxids : ¬ids.contains x.id := by
                    have := (List.mem_filter.mp hxf).2
                    simpa using this
                  have hxid : x.id ≠ j := fun hcon => hxids (hcon ▸ hj)
                  have hxact : x.isActive = false := by
                    rcases Bool.eq_false_or_eq_true x.isActive with ht | hf
                    · have := (h.2.2.1 x (List.mem_of_mem_filter hxf)).mp ht
                      rw [hA] at this
                      exact absurd (Option.some.inj this).symm hxid
                    · exact hf
                  rw [hxact]
                  constructor
                  · intro hcon
                    exact absurd hcon (by simp)
                  · intro hcon
                    have hbid : b.id = x.id := Option.some.inj hcon
                    rw [List.map_cons, List.nodup_cons] at hndf
                    exact absurd (hbid ▸ List.mem_map_of_mem Buffer.id hxr)
                      hndf.1
              · intro i hi
                have : b.id = i := Option.some.inj hi
                exact ⟨{ b with isActive := true },
                  List.mem_cons_self _ _, this⟩
              · intro _
                simp
        · simp only [closeBuffersBatch, hemp, hA, hj]
          have hsubf : (s.buffers.filter
              (fun b => !ids.contains b.id)).Sublist s.buffers :=
            List.filter_sublist s.buffers
          refine ⟨?_, ?_, ?_, ?_, ?_⟩
          · exact (hsubf.map Buffer.id).nodup h.1
          · exact fun x hx => h.2.1 x (hsubf.subset hx)
          · intro x hx
            have := h.2.2.1 x (hsubf.subset hx)
            rw [hA] at this
            exact this
          · intro i hi
            have hij : j = i := Option.some.inj hi
            obtain ⟨b, hb, hbj⟩ := h.2.2.2.1 j hA
            refine ⟨b, List.mem_filter.mpr ⟨hb, ?_⟩, hij ▸ hbj⟩
            simp only [Bool.not_eq_true']
            rw [hbj]
            exact Bool.of_not_eq_true (fun hcon => hj (by simpa using hcon))
          · intro _
            simp

/-- `switchToNextBuffer` preserves the invariant. -/
lemma inv_switchToNextBuffer (s : BufferState) (h : Inv s) :
    Inv (switchToNextBuffer s) := by
  by_cases hemp : s.buffers.isEmpty
  · simp only [switchToNextBuffer, hemp]
    exact h
  · cases hg : s.buffers[nextBufferIndex s]? with
    | none =>
        simp only [switchToNextBuffer, hemp, hg]
        exact h
    | some nb =>
        simp only [switchToNextBuffer, hemp, hg]
        exact inv_reassign s s.buffers (some nb.id) s.closedBuffersHistory
          h.1 h.2.1 (fun _ => by simp)
          (fun j hj => ⟨nb, List.getElem?_mem hg, Option.some.inj hj⟩)

/-- `switchToPreviousBuffer` preserves the invariant. -/
lemma inv_switchToPreviousBuffer (s : BufferState) (h : Inv s) :
    Inv (switchToPreviousBuffer s) := by
  by_cases hemp : s.buffers.isEmpty
  · simp only [switchToPreviousBuffer, hemp]
    exact h
  · cases hg : s.buffers[prevBufferIndex s]? with
    | none =>
        simp only [switchToPreviousBuffer, hemp, hg]
        exact h
    | some pb =>
        simp only [switchToPreviousBuffer, hemp, hg]
        exact inv_reassign s s.buffers (some pb.id) s.closedBuffersHistory
          h.1 h.2.1 (fun _ => by simp)
          (fun j hj => ⟨pb, List.getElem?_mem hg, Option.some.inj hj⟩)

/-- The list produced by a successful `reorderBuffers` is a permutation of
the original buffer list. -/
lemma reorderBuffers_perm {s : BufferState} {a b : Nat}
    {r : BufferState × List Effect}
    (hr : reorderBuffers s a b = some r) : r.1.buffers.Perm s.buffers := by
  unfold reorderBuffers at hr
  cases hg : s.buffers[a]? with
  | none =>
      rw [hg] at hr
      exact absurd hr (by simp)
  | some removed =>
      rw [hg] at hr
      simp only [Option.some.injEq] at hr
      rw [← hr]
      obtain ⟨ha, hremoved⟩ := List.getElem?_eq_some.mp hg
      show ((s.buffers.take a ++ s.buffers.drop (a + 1)).take
          (min b (s.buffers.take a ++ s.buffers.drop (a + 1)).length) ++
        removed :: (s.buffers.take a ++ s.buffers.drop (a + 1)).drop
          (min b (s.buffers.take a ++ s.buffers.drop (a + 1)).length)).Perm
        s.buffers
      have h1 := @List.perm_middle _ removed
        ((s.buffers.take a ++ s.buffers.drop (a + 1)).take
          (min b (s.buffers.take a ++ s.buffers.drop (a + 1)).length))
        ((s.buffers.take a ++ s.buffers.drop (a + 1)).drop
          (min b (s.buffers.take a ++ s.buffers.drop (a + 1)).length))
      rw [List.take_append_drop] at h1
      refine h1.trans ?_
      refine (@List.perm_middle _ removed (s.buffers.take a)
        (s.buffers.drop (a + 1))).symm.trans ?_
      rw [show s.buffers.take a ++ removed :: s.buffers.drop (a + 1) =
          s.buffers from by
        rw [← hremoved, ← List.drop_eq_getElem_cons ha,
          List.take_append_drop]]

/-- A well-formed `reorderBuffers` preserves the invariant. -/
lemma inv_reorderBuffers {s : BufferState} (h : Inv s) {a b : Nat}
    {r : BufferState × List Effect}
    (hr : reorderBuffers s a b = some r) : Inv r.1 := by
  have hp := reorderBuffers_perm hr
  have hfields : r.1 = { s with buffers := r.1.buffers } := by
    unfold reorderBuffers at hr
    cases hg : s.buffers[a]? with
    | none =>
        rw [hg] at hr
        exact absurd hr (by simp)
    | some removed =>
        rw [hg] at hr
        simp only [Option.some.injEq] at hr
        rw [← hr]
    -- all other fields are untouched
  rw [hfields]
  exact inv_of_perm s hp h

/-- `updateBuffer` with a record that keeps the replaced buffer's `isActive`
flag preserves the invariant. -/
lemma inv_updateBuffer (s : BufferState) (h : Inv s) {ub : Buffer}
    (hw : ∀ b0 ∈ s.buffers, b0.id = ub.id → ub.isActive = b0.isActive) :
    Inv (updateBuffer s ub) := by
  apply inv_updateFirst
  · intro b hb hpb
    have hbe : b.id = ub.id := by simpa using hpb
    exact hbe.symm
  · intro b hb hpb
    exact hw b hb (by simpa using hpb)
  · exact h

/-- `updateBufferContent` preserves the invariant. -/
lemma inv_updateBufferContent (s : BufferState) (h : Inv s) (i : Nat)
    (c : String) (md : Bool) (dd : Option DiffData) :
    Inv (updateBufferContent s i c md dd) := by
  cases hf : s.buffers.find? (fun b => b.id == i) with
  | none =>
      simp only [updateBufferContent, hf]
      exact h
  | some b =>
      by_cases hg : (b.content == c && dd.isNone) = true
      · simp only [updateBufferContent, hf, hg]
        exact h
      · simp only [updateBufferContent, hf]
        rw [if_neg hg]
        exact inv_updateFirst s _ _ (fun _ _ _ => rfl) (fun _ _ _ => rfl) h

/-- `updateBufferTokens` preserves the invariant. -/
lemma inv_updateBufferTokens (s : BufferState) (h : Inv s) (i : Nat)
    (ts : List Token) : Inv (updateBufferTokens s i ts) :=
  inv_updateFirst s _ _ (fun _ _ _ => rfl) (fun _ _ _ => rfl) h

/-- `markBufferDirty` preserves the invariant. -/
lemma inv_markBufferDirty (s : BufferState) (h : Inv s) (i : Nat)
    (d : Bool) : Inv (markBufferDirty s i d) :=
  inv_updateFirst s _ _ (fun _ _ _ => rfl) (fun _ _ _ => rfl) h

/-- `handleTabPin` preserves the invariant. -/
lemma inv_handleTabPin (s : BufferState) (h : Inv s) (i : Nat) :
    Inv (handleTabPin s i).1 :=
  inv_updateFirst s _ _ (fun _ _ _ => rfl) (fun _ _ _ => rfl) h

/-- `handleCloseOtherTabs` preserves the invariant. -/
lemma inv_handleCloseOtherTabs (s : BufferState) (h : Inv s) (k : Nat) :
    Inv (handleCloseOtherTabs s k).1 := by
  cases hf : (s.buffers.filter
      (fun b => b.id != k && !b.isPinned)).find? (fun b => b.isDirty) with
  | some d =>
      simp only [handleCloseOtherTabs, hf]
      exact h
  | none =>
      simp only [handleCloseOtherTabs, hf]
      exact inv_forceCloseAll s h _

/-- `handleCloseAllTabs` preserves the invariant. -/
lemma inv_handleCloseAllTabs (s : BufferState) (h : Inv s) :
    Inv (handleCloseAllTabs s).1 := by
  cases hf : (s.buffers.filter
      (fun b => !b.isPinned)).find? (fun b => b.isDirty) with
  | some d =>
      simp only [handleCloseAllTabs, hf]
      exact h
  | none =>
      simp only [handleCloseAllTabs, hf]
      exact inv_forceCloseAll s h _

/-- `handleCloseTabsToRight` preserves the invariant. -/
lemma inv_handleCloseTabsToRight (s : BufferState) (h : Inv s) (i : Nat) :
    Inv (handleCloseTabsToRight s i).1 := by
  cases hidx : s.buffers.findIdx? (fun b => b.id == i) with
  | none =>
      simp only [handleCloseTabsToRight, hidx]
      exact h
  | some bufferIndex =>
      cases hf : ((s.buffers.drop (bufferIndex + 1)).filter
          (fun b => !b.isPinned)).find? (fun b => b.isDirty) with
      | some d =>
          simp only [handleCloseTabsToRight, hidx, hf]
          exact h
      | none =>
          simp only [handleCloseTabsToRight, hidx, hf]
          exact inv_forceCloseAll s h _

/-- `confirmCloseWithoutSaving` preserves the invariant. -/
lemma inv_confirmCloseWithoutSaving (s : BufferState) (h : Inv s) :
    Inv (confirmCloseWithoutSaving s).1 := by
  cases hp : s.pendingClose with
  | none =>
      simp only [confirmCloseWithoutSaving, hp]
      exact h
  | some pc =>
      have h1 : Inv { s with pendingClose := none } := h
      cases ht : pc.type with
      | single =>
          simp only [confirmCloseWithoutSaving, hp, ht]
          exact inv_closeBufferForce _ h1 pc.bufferId
      | others =>
          cases hk : pc.keepBufferId with
          | none =>
              simp only [confirmCloseWithoutSaving, hp, ht, hk]
              exact h1
          | some keep =>
              simp only [confirmCloseWithoutSaving, hp, ht, hk]
              exact inv_forceCloseAll _ h1 _
      | all =>
          simp only [confirmCloseWithoutSaving, hp, ht]
          exact inv_forceCloseAll _ h1 _
      | toRight =>
          cases hidx : s.buffers.findIdx? (fun b => b.id == pc.bufferId) with
          | none =>
              simp only [confirmCloseWithoutSaving, hp, ht, hidx]
              exact h1
          | some idx =>
              simp only [confirmCloseWithoutSaving, hp, ht, hidx]
              exact inv_forceCloseAll _ h1 _

/-- `reloadBufferFromDisk` preserves the invariant. -/
lemma inv_reloadBufferFromDisk (s : BufferState) (h : Inv s) (i : Nat)
    (dc : Option String) : Inv (reloadBufferFromDisk s i dc) := by
  cases hf : s.buffers.find? (fun b => b.id == i) with
  | none =>
      simp only [reloadBufferFromDisk, hf]
      exact h
  | some b =>
      by_cases hfl : (b.isVirtual || b.isImage || b.isSQLite) = true
      · simp only [reloadBufferFromDisk, hf, hfl]
        exact h
      · cases dc with
        | none =>
            simp only [reloadBufferFromDisk, hf]
            rw [if_neg hfl]
            exact h
        | some content =>
            simp only [reloadBufferFromDisk, hf]
            rw [if_neg hfl]
            exact inv_updateBufferContent s h i content false none

/-- Every well-formed public action preserves the invariant. -/
lemma inv_applyAction {s s' : BufferState} (h : Inv s) {a : Action}
    (hwf : wfAction s a) (ha : applyAction s a = some s') : Inv s' := by
  cases a with
  | openBuffer p n c im sq df vr dd =>
      simp only [applyAction] at ha
      cases hr : openBuffer s p n c im sq df vr dd with
      | none =>
          rw [hr] at ha
          exact absurd ha (by simp)
      | some r =>
          rw [hr] at ha
          simp only [Option.map_some', Option.some.injEq] at ha
          rw [← ha]
          exact inv_openBuffer h hr
  | closeBuffer i =>
      simp only [applyAction, Option.some.injEq] at ha
      rw [← ha]
      exact inv_closeBuffer s h i
  | closeBufferForce i =>
      simp only [applyAction, Option.some.injEq] at ha
      rw [← ha]
      exact inv_closeBufferForce s h i
  | closeBuffersBatch ids skip =>
      simp only [applyAction, Option.some.injEq] at ha
      rw [← ha]
      exact inv_closeBuffersBatch s h ids skip
  | setActiveBuffer i =>
      simp only [applyAction, Option.some.injEq] at ha
      rw [← ha]
      exact inv_setActiveBuffer s h hwf
  | handleTabClick i =>
      simp only [applyAction, Option.some.injEq] at ha
      rw [← ha]
      exact inv_setActiveBuffer s h hwf
  | handleTabClose i =>
      simp only [applyAction, Option.some.injEq] at ha
      rw [← ha]
      exact inv_closeBuffer s h i
  | handleTabPin i =>
      simp only [applyAction, Option.some.injEq] at ha
      rw [← ha]
      exact inv_handleTabPin s h i
  | handleCloseOtherTabs k =>
      simp only [applyAction, Option.some.injEq] at ha
      rw [← ha]
      exact inv_handleCloseOtherTabs s h k
  | handleCloseAllTabs =>
      simp only [applyAction, Option.some.injEq] at ha
      rw [← ha]
      exact inv_handleCloseAllTabs s h
  | handleCloseTabsToRight i =>
      simp only [applyAction, Option.some.injEq] at ha
      rw [← ha]
      exact inv_handleCloseTabsToRight s h i
  | updateBufferContent i c m d =>
      simp only [applyAction, Option.some.injEq] at ha
      rw [← ha]
      exact inv_updateBufferContent s h i c m d
  | updateBufferTokens i ts =>
      simp only [applyAction, Option.some.injEq] at ha
      rw [← ha]
      exact inv_updateBufferTokens s h i ts
  | markBufferDirty i d =>
      simp only [applyAction, Option.some.injEq] at ha
      rw [← ha]
      exact inv_markBufferDirty s h i d
  | updateBuffer b =>
      simp only [applyAction, Option.some.injEq] at ha
      rw [← ha]
      exact inv_updateBuffer s h hwf
  | reorderBuffers a b =>
      simp only [applyAction] at ha
      cases hr : reorderBuffers s a b with
      | none =>
          rw [hr] at ha
          exact absurd ha (by simp)
      | some r =>
          rw [hr] at ha
          simp only [Option.map_some', Option.some.injEq] at ha
          rw [← ha]
          exact inv_reorderBuffers h hr
  | switchToNextBuffer =>
      simp only [applyAction, Option.some.injEq] at ha
      rw [← ha]
      exact inv_switchToNextBuffer s h
  | switchToPreviousBuffer =>
      simp only [applyAction, Option.some.injEq] at ha
      rw [← ha]
      exact inv_switchToPreviousBuffer s h
  | setMaxOpenTabs m =>
      simp only [applyAction, Option.some.injEq] at ha
      rw [← ha]
      exact h
  | setPendingClose p =>
      simp only [applyAction, Option.some.injEq] at ha
      rw [← ha]
      exact h
  | confirmCloseWithoutSaving =>
      simp only [applyAction, Option.some.injEq] at ha
      rw [← ha]
      exact inv_confirmCloseWithoutSaving s h
  | cancelPendingClose =>
      simp only [applyAction, Option.some.injEq] at ha
      rw [← ha]
      exact h
  | reloadBufferFromDisk i c =>
      simp only [applyAction, Option.some.injEq] at ha
      rw [← ha]
      exact inv_reloadBufferFromDisk s h i c

/-- The empty initial state satisfies the invariant. -/
lemma inv_initState (m0 : Nat) : Inv (initState m0) := by
  refine ⟨by simp [initState], by simp [initState], by simp [initState],
    ?_, by simp [initState]⟩
  intro i hi
  simp [initState] at hi

/-- Every state reachable by well-formed actions satisfies the invariant. -/
lemma inv_of_wfReach {m0 : Nat} {s : BufferState} (h : WfReach m0 s) :
    Inv s := by
  induction h with
  | init => exact inv_initState m0
  | step hre hwf ha ih => exact inv_applyAction ih hwf ha

/-- The invariant entails the claim's conclusion. -/
lemma activeExclusive_of_inv {s : BufferState} (h : Inv s) :
    activeExclusive s := by
  obtain ⟨hnd, _, hmatch, hmem, hne⟩ := h
  constructor
  · intro hne'
    cases hA : s.activeBufferId with
    | none => exact absurd hA (hne hne')
    | some i =>
        obtain ⟨b, hb, hbi⟩ := hmem i hA
        have hbact : b.isActive = true := by
          rw [hmatch b hb, hA, hbi]
        constructor
        · have hcong : s.buffers.countP (fun x => x.isActive) =
              s.buffers.countP (fun x => x.id == i) := by
            apply countP_congr_mem
            intro x hx
            have hiff := hmatch x hx
            rw [hA] at hiff
            rcases Bool.eq_false_or_eq_true x.isActive with ht | hf
            · have hxi : x.id = i := (Option.some.inj (hiff.mp ht)).symm
              rw [ht]
              simp [hxi]
            · rw [hf]
              have hxi : x.id ≠ i := by
                intro hcon
                rw [hiff.mpr (by rw [hcon])] at hf
                exact Bool.true_eq_false.mp hf
              simp [hxi]
          rw [hcong]
          exact countP_id_eq_one hnd hb hbi
        · exact ⟨b, hb, hbact, by rw [hbi]⟩
  · intro hemp
    cases hA : s.activeBufferId with
    | none => rfl
    | some i =>
        obtain ⟨b, hb, _⟩ := hmem i hA
        rw [hemp] at hb
        simp at hb

/-! ## Claim C1 theorems -/

/-- C1, counterexample: the invariant is not maintained over arbitrary
argument values — from the empty initial state, `openBuffer("/a.ts", ...)`
followed by `setActiveBuffer(999)` (an id naming no open buffer) reaches a
state with a non-empty buffer list in which no buffer has
`isActive = true` and `activeBufferId` names no buffer, refuting the claim
as stated. -/
theorem athas_c1_counterexample :
    UReach 10 c1BadState ∧ c1BadState.buffers ≠ [] ∧
    c1BadState.buffers.countP (fun b => b.isActive) = 0 ∧
    ¬activeExclusive c1BadState := by
  refine ⟨?_, by decide, by decide, by decide⟩
  exact @UReach.step 10 c1MidState c1BadState (Action.setActiveBuffer 999)
    (@UReach.step 10 (initState 10) c1MidState
      (Action.openBuffer "/a.ts" "a.ts" "" false false false false none)
      UReach.init (by decide))
    (by decide)

/-- C1 (amended): in every state of the buffer store reachable from the
empty initial state by public actions whose arguments are well-formed for
the state they are applied in (`setActiveBuffer`/`handleTabClick` given an
open buffer's id, `updateBuffer` given a record that keeps the replaced
buffer's `isActive` flag, `reorderBuffers` given an in-range start index; all
other actions unrestricted), a non-empty buffer list has exactly one buffer
with `isActive = true` whose id is `activeBufferId`, and an empty buffer list
has a null `activeBufferId`. -/
theorem athas_c1_active_exclusivity {m0 : Nat} {s : BufferState}
    (h : WfReach m0 s) : activeExclusive s :=
  activeExclusive_of_inv (inv_of_wfReach h)

/-- C1, witness: the amended theorem applied to the concrete reachable state
obtained by opening `/a.ts`, opening `/b.ts`, then refocusing buffer `0`. -/
theorem athas_c1_active_exclusivity_witness :
    activeExclusive c1WitState := by
  exact @athas_c1_active_exclusivity 10 c1WitState
    (@WfReach.step 10 c1WitMid2 c1WitState (Action.setActiveBuffer 0)
      (@WfReach.step 10 c1MidState c1WitMid2
        (Action.openBuffer "/b.ts" "b.ts" "" false false false false none)
        (@WfReach.step 10 (initState 10) c1MidState
          (Action.openBuffer "/a.ts" "a.ts" "" false false false false
            none)
          WfReach.init (by decide) (by decide))
        (by decide) (by decide))
      (by decide) (by decide))

/-! ## Claim C2 -/

/-- C2: `openBuffer` is an idempotent focus-or-create — when a buffer with
the requested path is already open (`find?` hit, matching the source's
`buffers.find((b) => b.path === path)`), `openBuffer` returns the existing
buffer's id, keeps the buffer count and the per-path count unchanged (no
duplicate), and makes that buffer the active one. -/
theorem athas_c2_open_idempotent {s : BufferState} {p n c : String}
    {im sq df vr : Bool} {dd : Option DiffData} {ex : Buffer}
    (hex : s.buffers.find? (fun b => b.path == p) = some ex) :
    openBuffer s p n c im sq df vr dd =
      some ({ s with
              activeBufferId := some ex.id
              buffers := reassignActive s.buffers (some ex.id) },
            ex.id, []) ∧
    (reassignActive s.buffers (some ex.id)).length = s.buffers.length ∧
    (reassignActive s.buffers (some ex.id)).countP (fun b => b.path == p) =
      s.buffers.countP (fun b => b.path == p) ∧
    ∃ b ∈ reassignActive s.buffers (some ex.id),
      b.id = ex.id ∧ b.isActive = true := by
  refine ⟨?_, reassignActive_length _ _, ?_, ?_⟩
  · simp only [openBuffer, hex]
  · simp only [reassignActive, List.countP_map]
    rfl
  · refine ⟨{ ex with isActive := some ex.id == some ex.id },
      mem_reassignActive.mpr ⟨ex, List.mem_of_find?_eq_some hex, rfl⟩,
      rfl, by simp⟩

/-- C2, witness: reopening `/x.rs` in a store that already holds it returns
the original id `0`, refocuses it, and leaves the store with one buffer. -/
theorem athas_c2_open_idempotent_witness :
    openBuffer c2State "/x.rs" "x.rs" "other" false false false false
        none =
      some ({ c2State with
              activeBufferId := some c2Ex.id
              buffers := reassignActive c2State.buffers (some c2Ex.id) },
            c2Ex.id, []) ∧
    (reassignActive c2State.buffers (some c2Ex.id)).length =
      c2State.buffers.length :=
  ⟨(athas_c2_open_idempotent (by decide)).1,
   (@athas_c2_open_idempotent c2State "/x.rs" "x.rs" "other" false false
     false false none c2Ex (by decide)).2.1⟩

/-! ## Claim C5 -/

/-- C5: idempotent content update — `updateBufferContent(id, c, true)` with
`c` equal to the target buffer's current content and no diff payload leaves
the entire store state unchanged (no flag, token or structural change), and
the same holds for an id that names no buffer, for any arguments. -/
theorem athas_c5_idempotent_content_update {s : BufferState} {i : Nat}
    {c : String} :
    (∀ b : Buffer, s.buffers.find? (fun x => x.id == i) = some b →
      b.content = c → updateBufferContent s i c true none = s) ∧
    (s.buffers.find? (fun x => x.id == i) = none →
      ∀ (md : Bool) (dd : Option DiffData),
        updateBufferContent s i c md dd = s) := by
  constructor
  · intro b hf hc
    simp only [updateBufferContent, hf]
    rw [if_pos (by simp [hc])]
  · intro hf md dd
    simp only [updateBufferContent, hf]

/-- C5, witness: re-committing `"hello"` to the buffer that already holds
`"hello"` is a no-op, as is updating the non-existent id `42`. -/
theorem athas_c5_idempotent_content_update_witness :
    updateBufferContent c5S 0 "hello" true none = c5S ∧
    updateBufferContent c5S 42 "zz" true none = c5S :=
  ⟨(athas_c5_idempotent_content_update (s := c5S) (i := 0)
      (c := "hello")).1 c5Buf (by decide) (by decide),
   (athas_c5_idempotent_content_update (s := c5S) (i := 42)
      (c := "zz")).2 (by decide) true none⟩

/-! ## Claim C6 -/

/-- C6: LSP degrade-to-empty policy — whenever the host call rejects
(timeout, protocol error, no session running: any `Except.error`),
`getCompletions` returns the empty sequence and `getHover` returns `null`;
both are total functions of the host outcome, so no failure propagates to
the caller. -/
theorem athas_c6_degrade_to_empty (e : LspError) :
    getCompletions (Except.error e) = [] ∧
    getHover (Except.error e) = none :=
  ⟨rfl, rfl⟩

/-! ## Claim C10 -/

lemma find?_updateFirst {p : α → Bool} {f : α → α} (l : List α)
    (hpf : ∀ a, p (f a) = p a) :
    (updateFirst p f l).find? p = (l.find? p).map f := by
  induction l with
  | nil => rfl
  | cons a t ih =>
      by_cases h : p a
      · simp only [updateFirst]
        rw [if_pos h, List.find?_cons_of_pos _ (by rw [hpf]; exact h),
          List.find?_cons_of_pos _ h]
        rfl
      · simp only [updateFirst]
        rw [if_neg h, List.find?_cons_of_neg _ h,
          List.find?_cons_of_neg _ h, ih]

/-- C10: `markDirty` overwrites rather than accumulates — for a non-virtual
buffer and content different from the current one,
`updateBufferContent(id, c, markDirty)` sets `isDirty` to exactly the
`markDirty` argument (so `markDirty = false` clears a previously-set flag);
for a virtual buffer `isDirty` is never modified; and
`reloadBufferFromDisk`'s successful-read path is exactly
`updateBufferContent(id, diskContent, false)`. -/
theorem athas_c10_markDirty_overwrite {s : BufferState} {i : Nat}
    {c : String} {md : Bool} {b : Buffer}
    (hf : s.buffers.find? (fun x => x.id == i) = some b) :
    (b.isVirtual = false → b.content ≠ c →
      (updateBufferContent s i c md none).buffers.find?
          (fun x => x.id == i) =
        some { b with content := c, isDirty := md }) ∧
    (b.isVirtual = true → ∀ dd : Option DiffData,
      ∃ b', (updateBufferContent s i c md dd).buffers.find?
          (fun x => x.id == i) = some b' ∧ b'.isDirty = b.isDirty) ∧
    (b.isVirtual = false → b.isImage = false → b.isSQLite = false →
      reloadBufferFromDisk s i (some c) =
        updateBufferContent s i c false none) := by
  have hmut : ∀ dd : Option DiffData,
      ¬((b.content == c && dd.isNone) = true) →
      (updateBufferContent s i c md dd).buffers.find?
          (fun x => x.id == i) = some (contentMutation c md dd b) := by
    intro dd hguard
    simp only [updateBufferContent, hf]
    rw [if_neg hguard,
      show ({ s with buffers := (updateFirst (fun x => x.id == i)
          (contentMutation c md dd) s.buffers) } : BufferState).buffers =
        updateFirst (fun x => x.id == i) (contentMutation c md dd)
          s.buffers from rfl,
      find?_updateFirst, hf]
    · rfl
    · intro a
      rfl
  refine ⟨?_, ?_, ?_⟩
  · intro hv hc
    rw [hmut none (by simp [hc])]
    simp [contentMutation, hv]
  · intro hv dd
    by_cases hguard : (b.content == c && dd.isNone) = true
    · refine ⟨b, ?_, rfl⟩
      simp only [updateBufferContent, hf]
      rw [if_pos hguard]
      exact hf
    · refine ⟨contentMutation c md dd b, hmut dd hguard, ?_⟩
      simp [contentMutation, hv]
  · intro hv hi hq
    simp only [reloadBufferFromDisk, hf]
    rw [if_neg (by simp [hv, hi, hq])]

/-- C10, witness: on a dirty non-virtual buffer holding `"old"`, committing
`"new"` with `markDirty = false` clears the dirty flag (the disk-reload
path), and `reloadBufferFromDisk` is that very call. -/
theorem athas_c10_markDirty_overwrite_witness :
    (updateBufferContent c10S 0 "new" false none).buffers.find?
        (fun x => x.id == 0) =
      some { c10Buf with content := "new", isDirty := false } ∧
    reloadBufferFromDisk c10S 0 (some "new") =
      updateBufferContent c10S 0 "new" false none :=
  ⟨(@athas_c10_markDirty_overwrite c10S 0 "new" false c10Buf
      (by decide)).1 (by decide) (by decide),
   (@athas_c10_markDirty_overwrite c10S 0 "new" false c10Buf
      (by decide)).2.2 (by decide) (by decide) (by decide)⟩

/-! ## Claim C4 -/

/-- Cancelling right after overwriting an empty `pendingClose` restores it
exactly. -/
lemma cancel_after_set {s : BufferState} (hp : s.pendingClose = none)
    (x : Option PendingClose) :
    cancelPendingClose { s with pendingClose := x } = s := by
  cases s with
  | mk bufs act mx pc hist ck =>
      show BufferState.mk bufs act mx none hist ck =
        BufferState.mk bufs act mx pc hist ck
      rw [show pc = none from hp]

/-- Confirming a freshly recorded `single` pending close on a store whose
pending close was empty performs exactly the force close of that buffer. -/
lemma confirm_after_single {s : BufferState} (hp : s.pendingClose = none)
    (i : Nat) :
    confirmCloseWithoutSaving { s with pendingClose := (some
        { bufferId := i, type := CloseType.single,
          keepBufferId := none }) } =
      closeBufferForce s i := by
  cases s with
  | mk bufs act mx pc hist ck =>
      show closeBufferForce
        (BufferState.mk bufs act mx none hist ck) i =
        closeBufferForce (BufferState.mk bufs act mx pc hist ck) i
      rw [show pc = none from hp]

/-- C4 (amended): dirty-gated close with round-trip cancel, provided no
pending close is already recorded — for an open buffer with
`isDirty = true`, `closeBuffer(id)` records
`pendingClose = {bufferId: id, type: "single"}` and removes no buffer; a
subsequent `cancelPendingClose` restores the state exactly;
`confirmCloseWithoutSaving` performs exactly the originally requested
`closeBufferForce(id)`; and for a buffer with `isDirty = false`,
`closeBuffer` is `closeBufferForce` outright. -/
theorem athas_c4_dirty_gated_close {s : BufferState} {i : Nat} {b : Buffer}
    (hp : s.pendingClose = none)
    (hf : s.buffers.find? (fun x => x.id == i) = some b) :
    (b.isDirty = true →
      (closeBuffer s i).1 =
        { s with pendingClose := (some
            { bufferId := i, type := CloseType.single,
              keepBufferId := none }) } ∧
      (closeBuffer s i).1.buffers = s.buffers ∧
      cancelPendingClose (closeBuffer s i).1 = s ∧
      confirmCloseWithoutSaving (closeBuffer s i).1 =
        closeBufferForce s i) ∧
    (b.isDirty = false → closeBuffer s i = closeBufferForce s i) := by
  constructor
  · intro hd
    have hstate : (closeBuffer s i).1 =
        { s with pendingClose := (some
            { bufferId := i, type := CloseType.single,
              keepBufferId := none }) } := by
      simp [closeBuffer, hf, hd]
    refine ⟨hstate, ?_, ?_, ?_⟩
    · rw [hstate]
    · rw [hstate]
      exact cancel_after_set hp _
    · rw [hstate]
      exact confirm_after_single hp i
  · intro hd
    simp [closeBuffer, hf, hd]

/-- C4, counterexample: the round-trip-restore clause fails as universally
stated — in a reachable state where `handleCloseAllTabs` has already
recorded `pendingClose = {bufferId: 0, type: "all"}`, calling
`closeBuffer(1)` on the dirty buffer `1` overwrites that record, and
`cancelPendingClose` then clears it to `null` instead of restoring it, so
the state differs from the one before the close attempt. -/
theorem athas_c4_counterexample :
    UReach 10 c4S ∧
    (∃ b ∈ c4S.buffers, b.id = 1 ∧ b.isDirty = true) ∧
    c4S.pendingClose ≠ none ∧
    cancelPendingClose (closeBuffer c4S 1).1 ≠ c4S := by
  refine ⟨?_, by decide, by decide, by decide⟩
  exact @UReach.step 10 c4Dirty2 c4S Action.handleCloseAllTabs
    (@UReach.step 10 c4Dirty1 c4Dirty2 (Action.markBufferDirty 1 true)
      (@UReach.step 10 c4Open2 c4Dirty1 (Action.markBufferDirty 0 true)
        (@UReach.step 10 c4Open1 c4Open2
          (Action.openBuffer "/b.ts" "b.ts" "" false false false false
            none)
          (@UReach.step 10 (initState 10) c4Open1
            (Action.openBuffer "/a.ts" "a.ts" "" false false false false
              none)
            UReach.init (by decide))
          (by decide))
        (by decide))
      (by decide))
    (by decide)

/-- C4, witness: the amended theorem applied to a store holding one dirty
buffer and no pending close. -/
theorem athas_c4_dirty_gated_close_witness :
    (closeBuffer c4WitState 0).1.buffers = c4WitState.buffers ∧
    cancelPendingClose (closeBuffer c4WitState 0).1 = c4WitState ∧
    confirmCloseWithoutSaving (closeBuffer c4WitState 0).1 =
      closeBufferForce c4WitState 0 := by
  have h := (athas_c4_dirty_gated_close (s := c4WitState) (i := 0)
    (b := c4WitBuf) (by decide) (by decide)).1 (by decide)
  exact ⟨h.2.1, h.2.2.1, h.2.2.2⟩

/-! ## Claims C3 and C9: elimination of `openBuffer`'s new-buffer branch -/

/-- Full characterization of a successful `openBuffer` on a path that is not
already open: the survivor list is either the original list minus the first
unpinned buffer (limit reached), the empty list (empty store with a zero
limit), or the original list (below the limit), and the result is the
deactivated survivors plus the freshly stamped buffer. -/
lemma openBuffer_new_spec {s : BufferState} {p n c : String}
    {im sq df vr : Bool} {dd : Option DiffData}
    {r : BufferState × Nat × List Effect}
    (hnf : s.buffers.find? (fun b => b.path == p) = none)
    (hr : openBuffer s p n c im sq df vr dd = some r) :
    ∃ bufs : List Buffer,
      ((s.maxOpenTabs ≤ unpinnedCount s ∧
          ∃ lru, (s.buffers.filter (fun b => !b.isPinned)).head? =
              some lru ∧
            bufs = s.buffers.filter (fun b => b.id != lru.id)) ∨
        (s.maxOpenTabs ≤ unpinnedCount s ∧ s.buffers = [] ∧ bufs = []) ∨
        (unpinnedCount s < s.maxOpenTabs ∧ bufs = s.buffers)) ∧
      r = ({ s with
             buffers := reassignActive bufs none ++
               [freshBuffer s p n c im sq df vr dd]
             activeBufferId := some s.clock
             clock := s.clock + 1 },
           s.clock, openEffects p n im sq df vr) := by
  unfold openBuffer at hr
  rw [hnf] at hr
  simp only at hr
  by_cases hcond : s.maxOpenTabs ≤
      (s.buffers.filter (fun b => !b.isPinned)).length
  · rw [if_pos hcond] at hr
    cases hhead : (s.buffers.filter (fun b => !b.isPinned)).head? with
    | some lru =>
        rw [hhead] at hr
        simp only [Option.some.injEq] at hr
        exact ⟨s.buffers.filter (fun b => b.id != lru.id),
          Or.inl ⟨hcond, lru, rfl, rfl⟩, hr.symm⟩
    | none =>
        rw [hhead] at hr
        by_cases hemp : s.buffers.isEmpty
        · rw [if_pos hemp] at hr
          simp only [Option.some.injEq] at hr
          have hnil : s.buffers = [] := by
            cases hb : s.buffers with
            | nil => rfl
            | cons a t => rw [hb] at hemp; simp at hemp
          exact ⟨s.buffers, Or.inr (Or.inl ⟨hcond, hnil, hnil⟩), hr.symm⟩
        · rw [if_neg hemp] at hr
          exact absurd hr (by simp)
  · rw [if_neg hcond] at hr
    simp only [Option.some.injEq] at hr
    exact ⟨s.buffers, Or.inr (Or.inr ⟨Nat.lt_of_not_le hcond, rfl⟩),
      hr.symm⟩

/-- Re-activation does not change which buffers are pinned. -/
lemma unpinned_length_reassign (l : List Buffer) (a : Option Nat) :
    ((reassignActive l a).filter (fun b => !b.isPinned)).length =
      (l.filter (fun b => !b.isPinned)).length := by
  rw [← List.countP_eq_length_filter, ← List.countP_eq_length_filter,
    reassignActive, List.countP_map]
  rfl

/-- Removing the first unpinned buffer from a list with distinct ids drops
exactly one from the unpinned count. -/
lemma unpinned_length_evict {l : List Buffer} {lru : Buffer}
    (hnd : (l.map Buffer.id).Nodup)
    (hhead : (l.filter (fun b => !b.isPinned)).head? = some lru) :
    ((l.filter (fun b => b.id != lru.id)).filter
        (fun b => !b.isPinned)).length + 1 =
      (l.filter (fun b => !b.isPinned)).length := by
  cases hu : l.filter (fun b => !b.isPinned) with
  | nil => rw [hu] at hhead; simp at hhead
  | cons a utail =>
      rw [hu] at hhead
      simp only [List.head?_cons, Option.some.injEq] at hhead
      rw [hhead] at hu
      have hswap : (l.filter (fun b => b.id != lru.id)).filter
          (fun b => !b.isPinned) =
          (l.filter (fun b => !b.isPinned)).filter
            (fun b => b.id != lru.id) := by
        rw [List.filter_filter, List.filter_filter]
        exact List.filter_congr (fun x _ => by rw [Bool.and_comm])
      have hndu : ((lru :: utail).map Buffer.id).Nodup := by
        rw [← hu]
        exact ((List.filter_sublist l).map Buffer.id).nodup hnd
      rw [List.map_cons, List.nodup_cons] at hndu
      have hutail : utail.filter (fun b => b.id != lru.id) = utail := by
        rw [List.filter_eq_self]
        intro x hx
        simp only [bne_iff_ne, ne_eq, decide_eq_true_eq]
        intro hcon
        exact hndu.1 (hcon ▸ List.mem_map_of_mem Buffer.id hx)
      rw [hswap, hu, List.filter_cons]
      have hfalse : (lru.id != lru.id) = false := by simp
      rw [hfalse]
      simp only [Bool.false_eq_true, if_false]
      rw [hutail]
      simp

lemma countP_not_add (p : α → Bool) (l : List α) :
    l.countP p + l.countP (fun a => !p a) = l.length := by
  induction l with
  | nil => rfl
  | cons a t ih =>
      rw [List.countP_cons, List.countP_cons]
      cases h : p a <;> simp only [List.length_cons] <;> simp <;> omega

/-- Removing the first unpinned buffer from a list with distinct ids removes
exactly one element overall. -/
lemma evict_length {l : List Buffer} {lru : Buffer}
    (hnd : (l.map Buffer.id).Nodup) (hlru : lru ∈ l) :
    (l.filter (fun b => b.id != lru.id)).length + 1 = l.length := by
  have h1 : l.countP (fun b => b.id == lru.id) = 1 :=
    countP_id_eq_one hnd hlru rfl
  have h2 := countP_not_add (fun b => b.id == lru.id) l
  rw [← List.countP_eq_length_filter]
  have h3 : l.countP (fun b => b.id != lru.id) =
      l.countP (fun b => !(b.id == lru.id)) := rfl
  rw [h3]
  omega

/-- C3 (amended): eviction bound, for a positive tab limit and a store with
pairwise-distinct buffer ids stamped below the clock (both hold in every
reachable state) — when `openBuffer` creates a new buffer while the unpinned
count is at or above `maxOpenTabs`, exactly one unpinned buffer, the first
unpinned buffer in list order, is removed before insertion (so the unpinned
count does not grow past `max maxOpenTabs count`), pinned buffers are never
evicted, and below the limit nothing is removed.  (With `maxOpenTabs = 0`
the limit branch can run with no unpinned buffer to evict, refuting the
unqualified claim — see the counterexample.) -/
theorem athas_c3_eviction_bound {s : BufferState} {p n c : String}
    {im sq df vr : Bool} {dd : Option DiffData}
    {r : BufferState × Nat × List Effect}
    (hpos : 0 < s.maxOpenTabs)
    (hnd : (s.buffers.map Buffer.id).Nodup)
    (hck : ∀ b ∈ s.buffers, b.id < s.clock)
    (hnf : s.buffers.find? (fun b => b.path == p) = none)
    (hr : openBuffer s p n c im sq df vr dd = some r) :
    (∀ b ∈ s.buffers, b.isPinned = true →
      ∃ b' ∈ r.1.buffers, b'.id = b.id ∧ b'.isPinned = true) ∧
    unpinnedCount r.1 ≤ max s.maxOpenTabs (unpinnedCount s) ∧
    (s.maxOpenTabs ≤ unpinnedCount s →
      ∃ lru, (s.buffers.filter (fun b => !b.isPinned)).head? = some lru ∧
        lru.isPinned = false ∧
        r.1.buffers.length = s.buffers.length ∧
        unpinnedCount r.1 = unpinnedCount s ∧
        (∀ b ∈ s.buffers, b.id ≠ lru.id →
          ∃ b' ∈ r.1.buffers, b'.id = b.id) ∧
        (∀ b' ∈ r.1.buffers, b'.id ≠ lru.id)) ∧
    (unpinnedCount s < s.maxOpenTabs →
      r.1.buffers.length = s.buffers.length + 1) := by
  obtain ⟨bufs, hcase, hreq⟩ := openBuffer_new_spec hnf hr
  have h1 : r.1 = { s with
      buffers := reassignActive bufs none ++
        [freshBuffer s p n c im sq df vr dd]
      activeBufferId := some s.clock
      clock := s.clock + 1 } := by rw [hreq]
  have h1b : r.1.buffers = reassignActive bufs none ++
      [freshBuffer s p n c im sq df vr dd] := by rw [h1]
  rcases hcase with ⟨hcond, lru, hhead, hbufs⟩ | ⟨hcond, hnil, _⟩ |
    ⟨hlt, hbufs⟩
  · -- at or above the limit: the head of the unpinned list is evicted
    subst hbufs
    have hlru_u : lru ∈ s.buffers.filter (fun b => !b.isPinned) :=
      List.mem_of_mem_head? hhead
    have hlru_mem : lru ∈ s.buffers := List.mem_of_mem_filter hlru_u
    have hlru_unp : lru.isPinned = false := by
      have h := (List.mem_filter.mp hlru_u).2
      simpa using h
    have hElen := evict_length hnd hlru_mem
    have hunp : unpinnedCount r.1 = unpinnedCount s := by
      rw [h1]
      show ((reassignActive
          (s.buffers.filter (fun b => b.id != lru.id)) none ++
          [freshBuffer s p n c im sq df vr dd]).filter
          (fun b => !b.isPinned)).length = _
      rw [List.filter_append, List.length_append, unpinned_length_reassign]
      have h2 := unpinned_length_evict hnd hhead
      have h3 : ([freshBuffer s p n c im sq df vr dd].filter
          (fun b => !b.isPinned)).length = 1 := rfl
      rw [h3]
      exact h2
    have hsurvive : ∀ b ∈ s.buffers, b.id ≠ lru.id →
        ∃ b' ∈ r.1.buffers, b'.id = b.id ∧ b'.isPinned = b.isPinned := by
      intro b hb hbne
      refine ⟨{ b with isActive := (none : Option Nat) == some b.id },
        ?_, rfl, rfl⟩
      rw [h1b]
      exact List.mem_append_left _ (mem_reassignActive.mpr
        ⟨b, List.mem_filter.mpr ⟨hb, by simp [hbne]⟩, rfl⟩)
    refine ⟨?_, ?_, ?_, ?_⟩
    · intro b hb hbp
      have hbne : b.id ≠ lru.id := by
        intro hcon
        have hbe : b = lru :=
          List.inj_on_of_nodup_map hnd hb hlru_mem hcon
        rw [hbe, hlru_unp] at hbp
        exact absurd hbp (by simp)
      obtain ⟨b', hb', hid, hpin⟩ := hsurvive b hb hbne
      exact ⟨b', hb', hid, by rw [hpin]; exact hbp⟩
    · rw [hunp]
      exact le_max_right _ _
    · intro _
      refine ⟨lru, hhead, hlru_unp, ?_, hunp, ?_, ?_⟩
      · rw [h1b, List.length_append, reassignActive_length]
        simp only [List.length_singleton]
        omega
      · intro b hb hbne
        obtain ⟨b', hb', hid, _⟩ := hsurvive b hb hbne
        exact ⟨b', hb', hid⟩
      · intro b' hb'
        rw [h1b] at hb'
        rcases List.mem_append.mp hb' with hm | hm
        · rcases mem_reassignActive.mp hm with ⟨x, hx, rfl⟩
          have h := (List.mem_filter.mp hx).2
          simpa using h
        · rw [List.mem_singleton.mp hm]
          show s.clock ≠ lru.id
          intro hcon
          have h := hck lru hlru_mem
          rw [hcon] at h
          exact absurd h (lt_irrefl _)
    · intro hlt2
      exact absurd hlt2 (not_lt.mpr hcond)
  · -- empty store with a zero limit: excluded by the positive limit
    have h0 : unpinnedCount s = 0 := by
      show (s.buffers.filter (fun b => !b.isPinned)).length = 0
      rw [hnil]
      rfl
    rw [h0] at hcond
    omega
  · -- below the limit: everything survives, one buffer added
    subst hbufs
    have hlen : r.1.buffers.length = s.buffers.length + 1 := by
      rw [h1b, List.length_append, reassignActive_length]
      rfl
    have hunp : unpinnedCount r.1 = unpinnedCount s + 1 := by
      rw [h1]
      show ((reassignActive s.buffers none ++
          [freshBuffer s p n c im sq df vr dd]).filter
          (fun b => !b.isPinned)).length = _
      rw [List.filter_append, List.length_append, unpinned_length_reassign]
      rfl
    refine ⟨?_, ?_, ?_, ?_⟩
    · intro b hb hbp
      refine ⟨{ b with isActive := (none : Option Nat) == some b.id },
        ?_, rfl, hbp⟩
      rw [h1b]
      exact List.mem_append_left _ (mem_reassignActive.mpr ⟨b, hb, rfl⟩)
    · rw [hunp]
      have h2 : unpinnedCount s + 1 ≤ s.maxOpenTabs := hlt
      exact le_trans h2 (le_max_left _ _)
    · intro hcond
      exact absurd hcond (not_le.mpr hlt)
    · intro _
      exact hlen

/-- C3, counterexample: after the public action `setMaxOpenTabs(0)` on the
empty store, `openBuffer` runs its limit branch (`0 ≤ 0` unpinned buffers)
yet removes nothing — there is no unpinned buffer to evict — and the
unpinned count rises to `1`, past `max maxOpenTabs count = 0`, refuting the
claim as stated for every state. -/
theorem athas_c3_counterexample :
    UReach 10 c3ZeroState ∧
    (openBuffer c3ZeroState "/a.ts" "a.ts" "" false false false false
        none).isSome = true ∧
    c3ZeroState.maxOpenTabs ≤ unpinnedCount c3ZeroState ∧
    c3ZeroRes.buffers.length = c3ZeroState.buffers.length + 1 ∧
    unpinnedCount c3ZeroRes = 1 ∧
    max c3ZeroState.maxOpenTabs (unpinnedCount c3ZeroState) = 0 := by
  refine ⟨?_, by decide, by decide, by decide, by decide, by decide⟩
  exact @UReach.step 10 (initState 10) c3ZeroState
    (Action.setMaxOpenTabs 0) UReach.init (by decide)

/-- C3, witness: with limit `2` and `/a.ts`, `/b.ts` open, opening `/c.ts`
keeps the unpinned count at the limit and the buffer count unchanged
(one evicted, one inserted). -/
theorem athas_c3_eviction_bound_witness :
    unpinnedCount c3WitRes.1 ≤
      max c3WitState.maxOpenTabs (unpinnedCount c3WitState) ∧
    c3WitRes.1.buffers.length = c3WitState.buffers.length := by
  have h := @athas_c3_eviction_bound c3WitState "/c.ts" "c.ts" ""
    false false false false none c3WitRes
    (by decide) (by decide) (by decide) (by decide) (by decide)
  refine ⟨h.2.1, ?_⟩
  obtain ⟨lru, _, _, hlen, _⟩ := h.2.2.1 (by decide)
  exact hlen

/-! ## Claim C9 -/

/-- C9: eviction bypasses the close bookkeeping — a buffer removed by
`openBuffer`'s max-open-tabs eviction is filtered out of the list directly,
without `closeBufferForce`: the open leaves `closedBuffersHistory` unchanged
and emits no `stopForFile` LSP notification, so an evicted tab can never be
restored by `reopenClosedTab` (which only pops that history).  By contrast,
an explicit `closeBufferForce` of a persisted (non-virtual, non-diff,
non-image, non-sqlite) buffer emits `stopForFile(path)` and pushes a
`{path, name, isPinned}` history entry. -/
theorem athas_c9_eviction_bypasses_close {s : BufferState}
    {p n c : String} {im sq df vr : Bool} {dd : Option DiffData}
    {r : BufferState × Nat × List Effect}
    (hnf : s.buffers.find? (fun b => b.path == p) = none)
    (hr : openBuffer s p n c im sq df vr dd = some r) :
    r.1.closedBuffersHistory = s.closedBuffersHistory ∧
    (∀ q : String, Effect.lspStopForFile q ∉ r.2.2) ∧
    (∀ (t : BufferState) (j idx : Nat) (cb : Buffer),
      t.buffers.findIdx? (fun b => b.id == j) = some idx →
      t.buffers[idx]? = some cb →
      (!cb.isVirtual && !cb.isDiff && !cb.isImage && !cb.isSQLite) = true →
      Effect.lspStopForFile cb.path ∈ (closeBufferForce t j).2 ∧
      (closeBufferForce t j).1.closedBuffersHistory.head? =
        some { path := cb.path, name := cb.name,
               isPinned := cb.isPinned }) := by
  obtain ⟨bufs, _, hreq⟩ := openBuffer_new_spec hnf hr
  refine ⟨by rw [hreq], ?_, ?_⟩
  · intro q hq
    have heffs : r.2.2 = openEffects p n im sq df vr := by rw [hreq]
    rw [heffs] at hq
    unfold openEffects at hq
    by_cases hreal : (!vr && !df && !im && !sq) = true
    · rw [if_pos hreal] at hq
      simp at hq
    · rw [if_neg hreal] at hq
      simp at hq
  · intro t j idx cb hidx hget hreal
    constructor
    · simp only [closeBufferForce, hidx, hget, hreal]
      simp
    · simp only [closeBufferForce, hidx, hget, hreal]
      simp [maxClosedBuffersHistory]

/-- C9, witness: opening `/b.ts` at limit 1 evicts `/a.ts` without touching
the closed-buffers history, while an explicit force close of `/a.ts` does
emit the LSP stop for it. -/
theorem athas_c9_eviction_bypasses_close_witness :
    c9Res.1.closedBuffersHistory = c9S1.closedBuffersHistory ∧
    Effect.lspStopForFile "/a.ts" ∈ (closeBufferForce c9S1 0).2 ∧
    (closeBufferForce c9S1 0).1.closedBuffersHistory.head? =
      some { path := "/a.ts", name := "a.ts", isPinned := false } := by
  have h := @athas_c9_eviction_bypasses_close c9S1 "/b.ts" "b.ts" ""
    false false false false none c9Res (by decide) (by decide)
  have h2 := h.2.2 c9S1 0 0 c9Buf (by decide) (by decide) (by decide)
  exact ⟨h.1, h2.1, h2.2⟩

/-! ## Claim C7 -/

lemma lspInv_init (k : String) : LspInv k (lspStart2 k) := by
  refine ⟨Or.inl rfl, rfl, rfl, ?_, ?_, ?_⟩
  · intro h
    exact absurd h (by simp [lspStart2])
  · intro h
    exact absurd h (by simp [lspStart2])
  · simp [lspStart2, phaseWeight]

/-- One task's block preserves the shared-state invariant. -/
lemma lspInv_taskStep {k : String} {servers : List String} {cnt : Nat}
    {t u : LspTask}
    (hs : servers = [] ∨ servers = [k])
    (ht : t.key = some k)
    (htf : t.phase = LspPhase.finished → servers = [k])
    (huf : u.phase = LspPhase.finished → servers = [k])
    (hc : cnt ≤ phaseWeight t.phase + phaseWeight u.phase) :
    ((lspTaskStep servers cnt t).1 = [] ∨
      (lspTaskStep servers cnt t).1 = [k]) ∧
    (lspTaskStep servers cnt t).2.2.key = some k ∧
    ((lspTaskStep servers cnt t).2.2.phase = LspPhase.finished →
      (lspTaskStep servers cnt t).1 = [k]) ∧
    (u.phase = LspPhase.finished → (lspTaskStep servers cnt t).1 = [k]) ∧
    (lspTaskStep servers cnt t).2.1 ≤
      phaseWeight (lspTaskStep servers cnt t).2.2.phase +
        phaseWeight u.phase := by
  cases hph : t.phase with
  | notStarted =>
      by_cases hct : servers.contains k = true
      · have heq : lspTaskStep servers cnt t =
            (servers, cnt, { t with phase := LspPhase.finished }) := by
          simp only [lspTaskStep, hph, ht]
          rw [if_pos hct]
        have hsk : servers = [k] := by
          rcases hs with h | h
          · rw [h] at hct
            simp at hct
          · exact h
        rw [heq]
        refine ⟨Or.inr hsk, ht, fun _ => hsk, fun _ => hsk, ?_⟩
        show cnt ≤ phaseWeight LspPhase.finished + phaseWeight u.phase
        rw [hph] at hc
        simp only [phaseWeight] at hc ⊢
        omega
      · have heq : lspTaskStep servers cnt t =
            (servers, cnt + 1,
             { t with phase := LspPhase.awaitingSpawn }) := by
          simp only [lspTaskStep, hph, ht]
          rw [if_neg hct]
        rw [heq]
        refine ⟨hs, ht, ?_, huf, ?_⟩
        · intro hcon
          exact absurd hcon (by simp)
        · show cnt + 1 ≤
            phaseWeight LspPhase.awaitingSpawn + phaseWeight u.phase
          rw [hph] at hc
          simp only [phaseWeight] at hc ⊢
          omega
  | awaitingSpawn =>
      have heq : lspTaskStep servers cnt t =
          (insertKey servers k, cnt,
           { t with phase := LspPhase.finished }) := by
        simp [lspTaskStep, hph, ht]
      have hik : insertKey servers k = [k] := by
        rcases hs with h | h
        · rw [h]
          simp [insertKey]
        · rw [h]
          simp [insertKey]
      rw [heq]
      refine ⟨Or.inr hik, ht, fun _ => hik, fun _ => hik, ?_⟩
      show cnt ≤ phaseWeight LspPhase.finished + phaseWeight u.phase
      rw [hph] at hc
      simp only [phaseWeight] at hc ⊢
      omega
  | finished =>
      have heq : lspTaskStep servers cnt t = (servers, cnt, t) := by
        simp [lspTaskStep, hph]
      rw [heq]
      refine ⟨hs, ht, fun _ => htf hph, huf, ?_⟩
      exact hc

/-- One scheduler step preserves the invariant. -/
lemma lspInv_step {k : String} {w : LspWorld} (pick : Bool)
    (h : LspInv k w) : LspInv k (lspStep w pick) := by
  obtain ⟨hs, ht1, ht2, hf1, hf2, hc⟩ := h
  cases pick with
  | false =>
      have H := @lspInv_taskStep k w.activeLanguageServers w.spawnCount
        w.t2 w.t1 hs ht2 hf2 hf1
        (by rw [Nat.add_comm] at hc; exact hc)
      exact ⟨H.1, ht1, H.2.1, fun hcon => H.2.2.2.1 hcon, H.2.2.1,
        by rw [Nat.add_comm]; exact H.2.2.2.2⟩
  | true =>
      have H := @lspInv_taskStep k w.activeLanguageServers w.spawnCount
        w.t1 w.t2 hs ht1 hf1 hf2 hc
      exact ⟨H.1, H.2.1, ht2, H.2.2.1, fun hcon => H.2.2.2.1 hcon,
        H.2.2.2.2⟩

lemma lspInv_run (k : String) (schedule : List Bool) :
    ∀ w : LspWorld, LspInv k w → LspInv k (lspRun w schedule) := by
  induction schedule with
  | nil =>
      intro w h
      exact h
  | cons pick rest ih =>
      intro w h
      exact ih _ (lspInv_step pick h)

/-- C7 (amended): under every interleaving of two `startForFile` calls that
resolve the same `(workspace, languageId)` key, once both calls have
returned, exactly one active session is recorded for the pair (the
duplicate mark-active write is absorbed by `Set` semantics), and the host
is asked to spawn at most twice.  The stronger "at most one spawn" of the
original claim fails: the already-active check runs before the spawn
`invoke` and the mark-active write only after it resolves, so the check and
the write are not atomic — see the counterexample. -/
theorem athas_c7_single_session {k : String} {schedule : List Bool}
    (h1 : (lspRun (lspStart2 k) schedule).t1.phase = LspPhase.finished)
    (h2 : (lspRun (lspStart2 k) schedule).t2.phase = LspPhase.finished) :
    (lspRun (lspStart2 k) schedule).activeLanguageServers = [k] ∧
    (lspRun (lspStart2 k) schedule).spawnCount ≤ 2 := by
  have h := lspInv_run k schedule (lspStart2 k) (lspInv_init k)
  refine ⟨h.2.2.2.1 h1, ?_⟩
  have hb := h.2.2.2.2.2
  rw [h1, h2] at hb
  simpa [phaseWeight] using hb

/-- C7, counterexample: in the interleaving where the second call's check
block runs before the first call's spawn `invoke` resolves
(schedule A₁ A₂ B₁ B₂), the host is asked to spawn twice — refuting "the
external process host is asked to spawn the server at most once" — though
only one session is recorded; the sequential schedule A₁ B₁ A₂ B₂ spawns
once because the second check then sees the session. -/
theorem athas_c7_counterexample :
    (lspRun (lspStart2 "ws:typescript")
      [true, false, true, false]).spawnCount = 2 ∧
    (lspRun (lspStart2 "ws:typescript")
      [true, false, true, false]).activeLanguageServers =
      ["ws:typescript"] ∧
    (lspRun (lspStart2 "ws:typescript")
      [true, false, true, false]).t1.phase = LspPhase.finished ∧
    (lspRun (lspStart2 "ws:typescript")
      [true, false, true, false]).t2.phase = LspPhase.finished ∧
    (lspRun (lspStart2 "ws:typescript")
      [true, true, false, false]).spawnCount = 1 := by
  decide

/-- C7, witness: the amended theorem applied to the double-spawn
interleaving. -/
theorem athas_c7_single_session_witness :
    (lspRun (lspStart2 "ws:typescript")
      [true, false, true, false]).activeLanguageServers =
      ["ws:typescript"] ∧
    (lspRun (lspStart2 "ws:typescript")
      [true, false, true, false]).spawnCount ≤ 2 :=
  athas_c7_single_session (by decide) (by decide)

/-! ## Claim C8 -/

/-- C8: the extension resolution gate — opening a non-virtual, non-diff,
non-image, non-sqlite file dispatches the extension check (and a buffer with
any of those flags set does not); the check's decision procedure maps a
resolved-but-not-installed descriptor to the install-needed notification
carrying exactly `{extensionId, extensionName, filePath}` (and never to an
LSP start), a resolved-and-installed descriptor to an LSP session start for
the file with workspace `rootFolderPath || path`, and an unresolved path to
no action. -/
theorem athas_c8_extension_gate {s : BufferState} {p n c : String}
    {dd : Option DiffData} {r : BufferState × Nat × List Effect}
    (hnf : s.buffers.find? (fun b => b.path == p) = none)
    (hr : openBuffer s p n c false false false false dd = some r) :
    Effect.checkExtension p ∈ r.2.2 ∧
    (∀ (im sq df vr : Bool) (dd' : Option DiffData)
        (r' : BufferState × Nat × List Effect),
      (im || sq || df || vr) = true →
      openBuffer s p n c im sq df vr dd' = some r' →
      Effect.checkExtension p ∉ r'.2.2) ∧
    (∀ (available : List AvailableExtension) (installed : List String)
        (root : Option String),
      (∀ e : AvailableExtension,
        getExtensionForFile available p = some e →
        (installed.contains e.manifest.id = false →
          extensionActivationDecision available installed root p =
            ExtAction.installPrompt e.manifest.id
              e.manifest.displayName p ∧
          ∀ fp ws,
            extensionActivationDecision available installed root p ≠
              ExtAction.startLsp fp ws) ∧
        (installed.contains e.manifest.id = true →
          extensionActivationDecision available installed root p =
            ExtAction.startLsp p (jsStringOr root p))) ∧
      (getExtensionForFile available p = none →
        extensionActivationDecision available installed root p =
          ExtAction.noAction)) := by
  refine ⟨?_, ?_, ?_⟩
  · obtain ⟨bufs, _, hreq⟩ := openBuffer_new_spec hnf hr
    have heffs : r.2.2 = openEffects p n false false false false := by
      rw [hreq]
    rw [heffs]
    simp [openEffects]
  · intro im sq df vr dd' r' hflag hr'
    obtain ⟨bufs, _, hreq⟩ := openBuffer_new_spec hnf hr'
    have heffs : r'.2.2 = openEffects p n im sq df vr := by
      rw [hreq]
    rw [heffs]
    cases im <;> cases sq <;> cases df <;> cases vr <;>
      simp [openEffects] at hflag ⊢
  · intro available installed root
    constructor
    · intro e he
      constructor
      · intro hni
        have heq : extensionActivationDecision available installed root p =
            ExtAction.installPrompt e.manifest.id
              e.manifest.displayName p := by
          simp only [extensionActivationDecision, he]
          rw [if_neg (by
            simp only [isExtensionInstalled]
            rw [hni]
            simp)]
        refine ⟨heq, ?_⟩
        intro fp ws hcon
        rw [heq] at hcon
        exact absurd hcon (by simp)
      · intro hin
        simp only [extensionActivationDecision, he]
        rw [if_pos (by
          simp only [isExtensionInstalled]
          rw [hin])]
    · intro hnone
      simp only [extensionActivationDecision, hnone]

/-- C8, witness: opening `/m.ts` dispatches the check; against the inline
registry, the TypeScript descriptor resolves and — not installed — yields
the install prompt `{athas.typescript, TypeScript, /m.ts}`; installed, it
yields an LSP start with the root workspace; an unknown extension yields no
action. -/
theorem athas_c8_extension_gate_witness :
    Effect.checkExtension "/m.ts" ∈ c8Res.2.2 ∧
    extensionActivationDecision c8Registry [] none "/m.ts" =
      ExtAction.installPrompt "athas.typescript" "TypeScript" "/m.ts" ∧
    extensionActivationDecision c8Registry ["athas.typescript"]
        (some "/ws") "/m.ts" =
      ExtAction.startLsp "/m.ts" "/ws" ∧
    extensionActivationDecision c8Registry [] none "/m.xyz" =
      ExtAction.noAction := by
  refine ⟨?_, ?_, ?_, ?_⟩
  · exact (@athas_c8_extension_gate c8State "/m.ts" "m.ts" "" none c8Res
      (by decide) (by decide)).1
  · exact (((@athas_c8_extension_gate c8State "/m.ts" "m.ts" "" none
      c8Res (by decide) (by decide)).2.2 c8Registry [] none).1 c8TsExt
      (by decide)).1 (by decide) |>.1
  · exact (((@athas_c8_extension_gate c8State "/m.ts" "m.ts" "" none
      c8Res (by decide) (by decide)).2.2 c8Registry ["athas.typescript"]
      (some "/ws")).1 c8TsExt (by decide)).2 (by decide)
  · exact ((@athas_c8_extension_gate c8State "/m.xyz" "m.xyz" "" none
      ((openBuffer c8State "/m.xyz" "m.xyz" "" false false false false
        none).getD (c8State, 0, []))
      (by decide) (by decide)).2.2 c8Registry [] none).2 (by decide)

end Athas
